import Mathlib

/-!
# Matrix (Ukol_3/main.cpp)

A shallow embedding of the class `Matrix` of `src/Ukol_3/main.cpp` and a
verification of its accessors, constructors, arithmetic and `print`.

* An `int` is an `Int`; the result of `+`, `-` and `*` on two `int`s is reduced
  to the 32-bit two's-complement range by `wrap32` (an overflow wraps around).
  Indices and dimensions are compared as they are, no arithmetic is done on them.
* `int **data_` is `Option Buffer`: `none` is `nullptr`, `some d` a buffer of
  rows, each a list of cells.
* `throw std::out_of_range` is `Except.error MatrixError.outOfRange`.
* A `for (int i = 0; i < n; i++)` loop whose body changes neither `i` nor `n` is a
  fold of its body over `0, 1, ..., n - 1` (`forRange`, and `forRangeM` when the
  body may throw).
* What `print` writes to `std::cout` is a `String`; a `const` method returns no object.
-/

namespace MatrixSpec

/-! ## Machine integers -/

/-- Reduction of an integer to the signed 32-bit range `[-2^31, 2^31)`. -/
def wrap32 (x : Int) : Int := (x + 2147483648) % 4294967296 - 2147483648

/-! ## Loops -/

/-- The loop `for (int i = 0; i < n; i++) s = body(i, s);`. -/
def forRange {σ : Type} (n : Int) (init : σ) (body : Int → σ → σ) : σ :=
  (List.range n.toNat).foldl (fun s (i : Nat) => body (i : Int) s) init

/-- The loop `for (int i = 0; i < n; i++) s = body(i, s);` with a body that may throw:
the first exception leaves the loop. -/
def forRangeM {ε σ : Type} (n : Int) (init : σ) (body : Int → σ → Except ε σ) : Except ε σ :=
  (List.range n.toNat).foldlM (fun s (i : Nat) => body (i : Int) s) init

/-! ## Data model -/

/-- The exception `std::out_of_range`. -/
inductive MatrixError where
  | outOfRange
  deriving DecidableEq, Repr

deriving instance DecidableEq for Except

/-- What `data_` points to: `rows_` rows of `cols_` cells. -/
abbrev Buffer := List (List Int)

/-- The read `d[row][col]` of a buffer. -/
def Buffer.read (d : Buffer) (row col : Int) : Int :=
  (d.getD row.toNat []).getD col.toNat 0

/-- The write `d[row][col] = value` of a buffer. -/
def Buffer.write (d : Buffer) (row col value : Int) : Buffer :=
  d.set row.toNat ((d.getD row.toNat []).set col.toNat value)

/-- The buffer built by `allocateMatrix`: `rows` rows, each `new int[cols]()`. -/
def Buffer.zeros (rows cols : Int) : Buffer :=
  List.replicate rows.toNat (List.replicate cols.toNat 0)

/-- A buffer of `R` rows of `C` cells each. -/
def Buffer.Rect (d : Buffer) (R C : Nat) : Prop :=
  d.length = R ∧ ∀ row ∈ d, row.length = C

instance (d : Buffer) (R C : Nat) : Decidable (d.Rect R C) := by
  unfold Buffer.Rect
  infer_instance

/-- The fields of `class Matrix`. -/
structure Matrix where
  rows_ : Int
  cols_ : Int
  data_ : Option Buffer
  deriving DecidableEq, Repr

namespace Matrix

/-- `Matrix::allocateMatrix` (lines 24-39). -/
def allocateMatrix (self : Matrix) : Matrix :=
  if self.rows_ ≤ 0 ∨ self.cols_ ≤ 0 then
    { rows_ := 0, cols_ := 0, data_ := none }
  else
    { self with data_ := some (Buffer.zeros self.rows_ self.cols_) }

/-- `Matrix::Matrix(int rows, int cols)` (lines 65-70). -/
def new (rows cols : Int) : Matrix :=
  allocateMatrix { rows_ := rows, cols_ := cols, data_ := none }

/-- `Matrix::Matrix(const Matrix &other)` (lines 84-98). -/
def copy (other : Matrix) : Matrix :=
  let self := allocateMatrix { rows_ := other.rows_, cols_ := other.cols_, data_ := none }
  match self.data_, other.data_ with
  | some d, some od =>
    { self with
      data_ := some (forRange self.rows_ d fun r d =>
        forRange self.cols_ d fun c d => d.write r c (od.read r c)) }
  | _, _ => self

/-- The buffer `data_` points to, for a `data_` that is not `nullptr`. -/
def buffer (self : Matrix) : Buffer := self.data_.getD []

/-- `Matrix::getRows` (line 103). -/
def getRows (self : Matrix) : Int := self.rows_

/-- `Matrix::getCols` (line 111). -/
def getCols (self : Matrix) : Int := self.cols_

/-- `Matrix::getValue` (lines 122-130). -/
def getValue (self : Matrix) (row col : Int) : Except MatrixError Int :=
  if row < 0 ∨ row ≥ self.getRows ∨ col < 0 ∨ col ≥ self.getCols ∨ self.data_ = none then
    .error .outOfRange
  else
    .ok (self.buffer.read row col)

/-- `Matrix::setValue` (lines 139-146): the outcome of the call and the object after it. -/
def setValue (self : Matrix) (row col value : Int) : Except MatrixError Unit × Matrix :=
  if row < 0 ∨ row ≥ self.getRows ∨ col < 0 ∨ col ≥ self.getCols ∨ self.data_ = none then
    (.error .outOfRange, self)
  else
    (.ok (), { self with data_ := some (self.buffer.write row col value) })

/-- A call `result.setValue(row, col, value)` on a local variable of a method: an
exception leaves the method, otherwise the method goes on with the updated local. -/
def setLocal (result : Matrix) (row col value : Int) : Except MatrixError Matrix :=
  match result.setValue row col value with
  | (.ok _, result') => .ok result'
  | (.error e, _) => .error e

/-- The text `std::cout << std::setw(w) << value` writes for an `int`: its decimal
rendering, right-aligned in `w` columns filled with spaces, and in full when it is
longer. -/
def setw (w : Nat) (value : Int) : String :=
  String.mk (List.replicate (w - (toString value).length) ' ') ++ toString value

/-- `Matrix::print` (lines 151-167): the text a call that returns has written to
`std::cout`; `std::endl` writes a line feed, and `%` on two `int`s truncates. -/
def print (self : Matrix) : Except MatrixError String :=
  forRangeM self.getRows
    ("Matrix (" ++ toString self.rows_ ++ "x" ++ toString self.cols_ ++ ")" ++ "\n")
    fun r out =>
      forRangeM self.getCols out fun c out => do
        let result ← self.getValue r c
        let new_line := if Int.tmod (c + 1) self.getCols = 0 then "\n" else ""
        pure (out ++ setw 4 result ++ new_line)

/-- The first line of a text: what stands before its first line feed. -/
def firstLine (s : String) : String :=
  String.mk (s.data.takeWhile fun ch => ch ≠ '\n')

/-- `Matrix::add` (lines 175-193). -/
def add (self other : Matrix) : Except MatrixError Matrix :=
  if self.rows_ ≠ other.getRows ∨ self.cols_ ≠ other.getCols then
    .ok (Matrix.new 0 0)
  else
    forRangeM self.getRows (Matrix.new self.rows_ self.cols_) fun r result =>
      forRangeM self.getCols result fun c result => do
        let elementA ← self.getValue r c
        let elementB ← other.getValue r c
        result.setLocal r c (wrap32 (elementA + elementB))

/-- `Matrix::subtract` (lines 201-219). -/
def subtract (self other : Matrix) : Except MatrixError Matrix :=
  if self.getRows ≠ other.getRows ∨ self.getCols ≠ other.getCols then
    .ok (Matrix.new 0 0)
  else
    forRangeM self.getRows (Matrix.new self.rows_ self.cols_) fun r result =>
      forRangeM self.getCols result fun c result => do
        let elementA ← self.getValue r c
        let elementB ← other.getValue r c
        result.setLocal r c (wrap32 (elementA - elementB))

/-- `Matrix::multiply` (lines 227-247). -/
def multiply (self other : Matrix) : Except MatrixError Matrix :=
  if self.getCols ≠ other.getRows then
    .ok (Matrix.new 0 0)
  else
    forRangeM self.getRows (Matrix.new self.rows_ other.cols_) fun r result =>
      forRangeM other.getCols result fun cB result => do
        let suma ← forRangeM self.getCols (0 : Int) fun k suma => do
          let x ← self.getValue r k
          let y ← other.getValue k cB
          pure (wrap32 (suma + wrap32 (x * y)))
        result.setLocal r cB suma

/-- `Matrix::transpose` (lines 253-265). -/
def transpose (self : Matrix) : Except MatrixError Matrix :=
  forRangeM self.getRows (Matrix.new self.cols_ self.rows_) fun r result =>
    forRangeM self.getCols result fun c result => do
      let v ← self.getValue r c
      result.setLocal c r v

/-- The class invariant: a matrix without a buffer has shape `(0, 0)`, and a buffer
has `rows_ > 0` rows of `cols_ > 0` cells each. -/
def Inv (m : Matrix) : Prop :=
  match m.data_ with
  | none => m.rows_ = 0 ∧ m.cols_ = 0
  | some d => 0 < m.rows_ ∧ 0 < m.cols_ ∧ d.Rect m.rows_.toNat m.cols_.toNat

instance (m : Matrix) : Decidable m.Inv := by
  unfold Inv
  cases m.data_ <;> infer_instance

/-- The cell `(r, c)` is inside the shape of `m`. -/
def InBounds (m : Matrix) (r c : Int) : Prop :=
  0 ≤ r ∧ r < m.rows_ ∧ 0 ≤ c ∧ c < m.cols_

instance (m : Matrix) (r c : Int) : Decidable (m.InBounds r c) := by
  unfold InBounds
  infer_instance

/-- The value of the cell `(r, c)` as `getValue` returns it, and `0` where `getValue`
throws. -/
def cell (m : Matrix) (r c : Int) : Int :=
  match m.getValue r c with
  | .ok v => v
  | .error _ => 0

/-- The invariants 1 to 3 of the data model in the words of the specification:
`rows >= 0` and `cols >= 0`; with `rows == 0` or `cols == 0` there is no buffer and every
cell access throws; otherwise the buffer has `rows` rows of `cols` cells each, and every
`(r, c)` inside the shape addresses one cell, which `getValue` returns. -/
def DataModelInv (m : Matrix) : Prop :=
  0 ≤ m.rows_ ∧ 0 ≤ m.cols_ ∧
  ((m.rows_ = 0 ∨ m.cols_ = 0) →
    m.data_ = none ∧ ∀ r c : Int, m.getValue r c = .error .outOfRange) ∧
  (¬ (m.rows_ = 0 ∨ m.cols_ = 0) →
    ∃ d, m.data_ = some d ∧ d.length = m.rows_.toNat ∧
      (∀ row ∈ d, row.length = m.cols_.toNat) ∧
      ∀ r c : Int, 0 ≤ r → r < m.rows_ → 0 ≤ c → c < m.cols_ →
        ∃ v, (d[r.toNat]?).bind (fun row => row[c.toNat]?) = some v ∧
          m.getValue r c = .ok v)

/-- The matrix of the given shape that holds the given rows. -/
def ofRows (rows cols : Int) (d : Buffer) : Matrix :=
  { rows_ := rows, cols_ := cols, data_ := some d }

end Matrix

/-! ## Objects in the free store

The class above is a value: its buffer is part of it. To tell a deep copy from a copy of
the pointer, the same constructors and accessors are also given on objects whose `data_`
is an address of a free store. -/

/-- The free store: the buffers allocated so far, each at its address, the position at
which it stands. -/
structure Store where
  buffers : List Buffer
  deriving DecidableEq, Repr

/-- The read `p[row][col]` through the address `p`. -/
def Store.read (s : Store) (p : Nat) (row col : Int) : Int :=
  (s.buffers.getD p []).read row col

/-- The write `p[row][col] = value` through the address `p`. -/
def Store.write (s : Store) (p : Nat) (row col value : Int) : Store :=
  { buffers := s.buffers.set p ((s.buffers.getD p []).write row col value) }

/-- The fields of `class Matrix`, `data_` being `nullptr` or an address of the store. -/
structure MatrixObj where
  rows_ : Int
  cols_ : Int
  data_ : Option Nat
  deriving DecidableEq, Repr

namespace MatrixObj

/-- `Matrix::allocateMatrix` (lines 24-39): `new` takes the next address of the store. -/
def allocateMatrix (s : Store) (self : MatrixObj) : Store × MatrixObj :=
  if self.rows_ ≤ 0 ∨ self.cols_ ≤ 0 then
    (s, { rows_ := 0, cols_ := 0, data_ := none })
  else
    ({ buffers := s.buffers ++ [Buffer.zeros self.rows_ self.cols_] },
      { self with data_ := some s.buffers.length })

/-- `Matrix::Matrix(const Matrix &other)` (lines 84-98): the store after the call and the
object built. -/
def copy (s : Store) (other : MatrixObj) : Store × MatrixObj :=
  let a := allocateMatrix s { rows_ := other.rows_, cols_ := other.cols_, data_ := none }
  match a.2.data_, other.data_ with
  | some p, some q =>
    (forRange a.2.rows_ a.1 fun r s =>
      forRange a.2.cols_ s fun c s => s.write p r c (s.read q r c), a.2)
  | _, _ => a

/-- `Matrix::getValue` (lines 122-130). -/
def getValue (s : Store) (self : MatrixObj) (row col : Int) : Except MatrixError Int :=
  if row < 0 ∨ row ≥ self.rows_ ∨ col < 0 ∨ col ≥ self.cols_ ∨ self.data_ = none then
    .error .outOfRange
  else
    match self.data_ with
    | some p => .ok (s.read p row col)
    | none => .error .outOfRange

/-- `Matrix::setValue` (lines 139-146): the outcome of the call and the store after it. -/
def setValue (s : Store) (self : MatrixObj) (row col value : Int) :
    Except MatrixError Unit × Store :=
  if row < 0 ∨ row ≥ self.rows_ ∨ col < 0 ∨ col ≥ self.cols_ ∨ self.data_ = none then
    (.error .outOfRange, s)
  else
    match self.data_ with
    | some p => (.ok (), s.write p row col value)
    | none => (.error .outOfRange, s)

/-- The class invariant of an object in a store: without a buffer the shape is `(0, 0)`,
and `data_` is otherwise the address of a buffer of `rows_ > 0` rows of `cols_ > 0`
cells. -/
def Valid (s : Store) (m : MatrixObj) : Prop :=
  match m.data_ with
  | none => m.rows_ = 0 ∧ m.cols_ = 0
  | some p =>
    p < s.buffers.length ∧ 0 < m.rows_ ∧ 0 < m.cols_ ∧
      (s.buffers.getD p []).Rect m.rows_.toNat m.cols_.toNat

instance (s : Store) (m : MatrixObj) : Decidable (m.Valid s) := by
  unfold Valid
  cases m.data_ <;> infer_instance

/-- The matrix an object of the store stands for: its shape and the buffer at its
address. -/
def load (s : Store) (m : MatrixObj) : Matrix :=
  { rows_ := m.rows_, cols_ := m.cols_, data_ := m.data_.map fun p => s.buffers.getD p [] }

end MatrixObj

/-! ## Machine integers and buffers -/

theorem wrap32_add_left (a b : Int) : wrap32 (wrap32 a + b) = wrap32 (a + b) := by
  unfold wrap32; omega

theorem wrap32_add_right (a b : Int) : wrap32 (a + wrap32 b) = wrap32 (a + b) := by
  unfold wrap32; omega

theorem wrap32_of_range (a : Int) (h1 : -2147483648 ≤ a) (h2 : a < 2147483648) : wrap32 a = a := by
  unfold wrap32; omega

theorem Buffer.read_write_same (d : Buffer) (R C : Nat) (h : d.Rect R C) (r c v : Int)
    (hr : r.toNat < R) (hc : c.toNat < C) : (d.write r c v).read r c = v := by
  obtain ⟨hl, hrow⟩ := h
  have hr' : r.toNat < d.length := by omega
  have hlen : (d[r.toNat]).length = C := hrow _ (List.getElem_mem hr')
  simp [Buffer.read, Buffer.write, List.getD_eq_getElem?_getD, List.getElem?_set, hr',
    List.getElem?_eq_getElem, hlen, hc]

theorem Buffer.read_write_other (d : Buffer) (r c v r' c' : Int)
    (hne : r'.toNat ≠ r.toNat ∨ c'.toNat ≠ c.toNat) :
    (d.write r c v).read r' c' = d.read r' c' := by
  simp only [Buffer.read, Buffer.write, List.getD_eq_getElem?_getD, List.getElem?_set]
  generalize r.toNat = i at *
  generalize r'.toNat = i' at *
  generalize c.toNat = j at *
  generalize c'.toNat = j' at *
  by_cases h1 : i = i'
  · subst h1
    have h2 : j ≠ j' := by
      rcases hne with h | h
      · exact absurd rfl h
      · exact fun e => h e.symm
    by_cases h3 : i < d.length
    · simp [h3, h2, List.getElem?_set, List.getElem?_eq_getElem]
    · have : d[i]? = none := by
        rw [List.getElem?_eq_none]; omega
      simp [h3, this]
  · simp [h1]

theorem Buffer.rect_write (d : Buffer) (R C : Nat) (h : d.Rect R C) (r c v : Int) :
    (d.write r c v).Rect R C := by
  obtain ⟨hl, hrow⟩ := h
  refine ⟨by simp [Buffer.write, hl], ?_⟩
  intro row hmem
  unfold Buffer.write at hmem
  generalize r.toNat = i at *
  by_cases h3 : i < d.length
  · rcases List.mem_or_eq_of_mem_set hmem with h | h
    · exact hrow _ h
    · subst h
      rw [List.length_set, List.getD_eq_getElem?_getD]
      simp [List.getElem?_eq_getElem, h3]
      exact hrow _ (List.getElem_mem h3)
  · rw [List.set_eq_of_length_le (by omega)] at hmem
    exact hrow _ hmem

theorem Buffer.rect_zeros (R C : Int) : (Buffer.zeros R C).Rect R.toNat C.toNat := by
  refine ⟨by simp [Buffer.zeros], ?_⟩
  intro row hmem
  simp [Buffer.zeros] at hmem
  simp [hmem.2]

theorem Buffer.read_zeros (R C r c : Int) : (Buffer.zeros R C).read r c = 0 := by
  simp only [Buffer.read, Buffer.zeros, List.getD_eq_getElem?_getD, List.getElem?_replicate]
  split
  · simp [List.getElem?_replicate]
    split <;> rfl
  · rfl

theorem Buffer.rect_ext (d d' : Buffer) (R C : Nat) (h : d.Rect R C) (h' : d'.Rect R C)
    (hcell : ∀ r c : Nat, r < R → c < C → d.read r c = d'.read r c) : d = d' := by
  obtain ⟨hl, hrow⟩ := h
  obtain ⟨hl', hrow'⟩ := h'
  apply List.ext_getElem (by omega)
  intro i h1 h2
  have e1 : (d[i]).length = C := hrow _ (List.getElem_mem h1)
  have e2 : (d'[i]).length = C := hrow' _ (List.getElem_mem h2)
  apply List.ext_getElem (by omega)
  intro j h3 h4
  have := hcell i j (by omega) (by omega)
  simpa [Buffer.read, List.getD_eq_getElem?_getD, List.getElem?_eq_getElem, h1, h2, h3, h4]
    using this

namespace Matrix

theorem new_of_pos (R C : Int) (hR : 0 < R) (hC : 0 < C) :
    Matrix.new R C = { rows_ := R, cols_ := C, data_ := some (Buffer.zeros R C) } := by
  have : ¬ (R ≤ 0 ∨ C ≤ 0) := by omega
  simp [Matrix.new, allocateMatrix, this]

theorem new_of_nonpos (R C : Int) (h : R ≤ 0 ∨ C ≤ 0) :
    Matrix.new R C = { rows_ := 0, cols_ := 0, data_ := none } := by
  simp [Matrix.new, allocateMatrix, h]

theorem inv_new (R C : Int) : (Matrix.new R C).Inv := by
  by_cases h : R ≤ 0 ∨ C ≤ 0
  · rw [new_of_nonpos R C h]; simp [Inv]
  · have hR' : 0 < R := by omega
    have hC' : 0 < C := by omega
    rw [new_of_pos R C hR' hC']
    exact ⟨hR', hC', Buffer.rect_zeros R C⟩

theorem Inv.data_of_inBounds {m : Matrix} (h : m.Inv) {r c : Int} (hb : m.InBounds r c) :
    ∃ d, m.data_ = some d ∧ d.Rect m.rows_.toNat m.cols_.toNat := by
  unfold Inv at h
  unfold InBounds at hb
  cases hd : m.data_ with
  | none => rw [hd] at h; simp at h; omega
  | some d => rw [hd] at h; exact ⟨d, rfl, h.2.2⟩

theorem getValue_of_inBounds {m : Matrix} (h : m.Inv) {r c : Int} (hb : m.InBounds r c) :
    m.getValue r c = .ok (m.buffer.read r c) := by
  obtain ⟨d, hd, -⟩ := h.data_of_inBounds hb
  unfold InBounds at hb
  have : ¬ (r < 0 ∨ r ≥ m.getRows ∨ c < 0 ∨ c ≥ m.getCols ∨ m.data_ = none) := by
    simp [getRows, getCols, hd]; omega
  simp [getValue, this]

theorem getValue_of_not_inBounds (m : Matrix) {r c : Int} (hb : ¬ m.InBounds r c) :
    m.getValue r c = .error .outOfRange := by
  unfold InBounds at hb
  have : r < 0 ∨ r ≥ m.getRows ∨ c < 0 ∨ c ≥ m.getCols ∨ m.data_ = none := by
    simp only [getRows, getCols]; omega
  simp [getValue, this]

theorem setValue_of_inBounds {m : Matrix} (h : m.Inv) {r c : Int} (hb : m.InBounds r c)
    (v : Int) :
    m.setValue r c v = (.ok (), { m with data_ := some (m.buffer.write r c v) }) := by
  obtain ⟨d, hd, -⟩ := h.data_of_inBounds hb
  unfold InBounds at hb
  have : ¬ (r < 0 ∨ r ≥ m.getRows ∨ c < 0 ∨ c ≥ m.getCols ∨ m.data_ = none) := by
    simp [getRows, getCols, hd]; omega
  simp [setValue, this]

theorem setValue_of_not_inBounds (m : Matrix) {r c : Int} (hb : ¬ m.InBounds r c) (v : Int) :
    m.setValue r c v = (.error .outOfRange, m) := by
  unfold InBounds at hb
  have : r < 0 ∨ r ≥ m.getRows ∨ c < 0 ∨ c ≥ m.getCols ∨ m.data_ = none := by
    simp only [getRows, getCols]; omega
  simp [setValue, this]

/-- The effect of a `setValue` inside the shape: the call returns, the object keeps its
invariant and its shape, the cell holds the value and every other cell is as before. -/
theorem setValue_spec {m : Matrix} (h : m.Inv) {r c : Int} (hb : m.InBounds r c) (v : Int) :
    ∃ m', m.setValue r c v = (.ok (), m') ∧ m'.Inv ∧ m'.rows_ = m.rows_ ∧ m'.cols_ = m.cols_ ∧
      m'.getValue r c = .ok v ∧
      ∀ r' c', (r' ≠ r ∨ c' ≠ c) → m'.getValue r' c' = m.getValue r' c' := by
  obtain ⟨d, hd, hrect⟩ := h.data_of_inBounds hb
  have hbuf : m.buffer = d := by simp [buffer, hd]
  have hinv' : Inv { m with data_ := some (m.buffer.write r c v) } := by
    have hb' := hb
    unfold InBounds at hb'
    exact ⟨by show 0 < m.rows_; omega, by show 0 < m.cols_; omega,
      by rw [hbuf]; exact Buffer.rect_write d _ _ hrect r c v⟩
  refine ⟨_, setValue_of_inBounds h hb v, hinv', rfl, rfl, ?_, ?_⟩
  · rw [getValue_of_inBounds hinv' hb]
    have hb' := hb
    unfold InBounds at hb'
    simp only [buffer, Option.getD_some, hd]
    rw [Buffer.read_write_same d _ _ hrect r c v (by omega) (by omega)]
  · intro r' c' hne
    by_cases hb2 : m.InBounds r' c'
    · have hb3 : InBounds { m with data_ := some (m.buffer.write r c v) } r' c' := hb2
      rw [getValue_of_inBounds hinv' hb3, getValue_of_inBounds h hb2]
      simp only [buffer, Option.getD_some, hd]
      rw [Buffer.read_write_other]
      unfold InBounds at hb hb2
      omega
    · have hb3 : ¬ InBounds { m with data_ := some (m.buffer.write r c v) } r' c' := hb2
      rw [getValue_of_not_inBounds _ hb3, getValue_of_not_inBounds _ hb2]

theorem setLocal_spec {m : Matrix} (h : m.Inv) {r c : Int} (hb : m.InBounds r c) (v : Int) :
    ∃ m', m.setLocal r c v = .ok m' ∧ m'.Inv ∧ m'.rows_ = m.rows_ ∧ m'.cols_ = m.cols_ ∧
      m'.getValue r c = .ok v ∧
      ∀ r' c', (r' ≠ r ∨ c' ≠ c) → m'.getValue r' c' = m.getValue r' c' := by
  obtain ⟨m', h1, h2⟩ := setValue_spec h hb v
  exact ⟨m', by simp [setLocal, h1], h2⟩

/-- Two matrices that keep the invariant, have one shape and agree on every cell inside
it are equal. -/
theorem ext_of_getValue {m m' : Matrix} (h : m.Inv) (h' : m'.Inv) (hr : m.rows_ = m'.rows_)
    (hc : m.cols_ = m'.cols_)
    (hcell : ∀ r c, m.InBounds r c → m.getValue r c = m'.getValue r c) : m = m' := by
  obtain ⟨R, C, d⟩ := m
  obtain ⟨R', C', d'⟩ := m'
  simp only at hr hc
  subst hr hc
  cases d with
  | none =>
    cases d' with
    | none => rfl
    | some d' => simp [Inv] at h h'; omega
  | some d =>
    cases d' with
    | none => simp [Inv] at h h'; omega
    | some d' =>
      have e : d = d' := by
        apply Buffer.rect_ext d d' _ _ h.2.2 h'.2.2
        intro r c hr hc
        have hR := h.1
        have hC := h.2.1
        simp only at hR hC
        have hr' : r < R.toNat := hr
        have hc' : c < C.toNat := hc
        have hb : InBounds ⟨R, C, some d⟩ (r : Int) (c : Int) := by
          refine ⟨?_, ?_, ?_, ?_⟩
          · omega
          · show (r : Int) < R; omega
          · omega
          · show (c : Int) < C; omega
        have hb' : InBounds ⟨R, C, some d'⟩ (r : Int) (c : Int) := hb
        have := hcell r c hb
        rw [getValue_of_inBounds h hb, getValue_of_inBounds h' hb'] at this
        simpa [buffer] using this
      rw [e]

end Matrix

/-! ## Loops -/

/-- The rule of the `for` loop: an invariant that holds before the loop and is carried by
every turn of the body, which returns, holds after the loop, which returns too. -/
theorem forRangeM_inv {ε σ : Type} (n : Int) (body : Int → σ → Except ε σ)
    (P : Nat → σ → Prop) (init : σ) (h0 : P 0 init)
    (hstep : ∀ (i : Nat) (s : σ), i < n.toNat → P i s →
      ∃ s', body (i : Int) s = .ok s' ∧ P (i + 1) s') :
    ∃ s', forRangeM n init body = .ok s' ∧ P n.toNat s' := by
  unfold forRangeM
  generalize n.toNat = k at hstep ⊢
  induction k with
  | zero => exact ⟨init, rfl, h0⟩
  | succ k ih =>
    obtain ⟨s1, h1, p1⟩ := ih (fun i s hi => hstep i s (by omega))
    obtain ⟨s2, h2, p2⟩ := hstep k s1 (by omega) p1
    refine ⟨s2, ?_, p2⟩
    rw [List.range_succ, List.foldlM_append, h1]
    show (body (k : Int) s1 >>= fun s => pure s) = Except.ok s2
    rw [h2]
    rfl

namespace Matrix

/-- Two nested loops that store `f r c` in the cell `tgt r c` of a local matrix, for every
`(r, c)` of `[0, R) x [0, C)`, return a matrix of the same shape whose cell `tgt r c` holds
`f r c`. -/
theorem fill_spec (R C : Int) (res0 : Matrix) (h0 : res0.Inv)
    (body : Int → Int → Matrix → Except MatrixError Matrix)
    (tgt : Int → Int → Int × Int) (f : Int → Int → Int)
    (htgt : ∀ r c, 0 ≤ r → r < R → 0 ≤ c → c < C → res0.InBounds (tgt r c).1 (tgt r c).2)
    (hinj : ∀ r c r' c', tgt r c = tgt r' c' → r = r' ∧ c = c')
    (hbody : ∀ r c res, 0 ≤ r → r < R → 0 ≤ c → c < C →
      body r c res = res.setLocal (tgt r c).1 (tgt r c).2 (f r c)) :
    ∃ res, forRangeM R res0 (fun r result => forRangeM C result (fun c result =>
        body r c result)) = .ok res ∧
      res.Inv ∧ res.rows_ = res0.rows_ ∧ res.cols_ = res0.cols_ ∧
      ∀ r c, 0 ≤ r → r < R → 0 ≤ c → c < C →
        res.getValue (tgt r c).1 (tgt r c).2 = .ok (f r c) := by
  have key := forRangeM_inv R
    (fun r result => forRangeM C result (fun c result => body r c result))
    (fun i res => res.Inv ∧ res.rows_ = res0.rows_ ∧ res.cols_ = res0.cols_ ∧
      ∀ r c, 0 ≤ r → r < (i : Int) → 0 ≤ c → c < C →
        res.getValue (tgt r c).1 (tgt r c).2 = .ok (f r c))
    res0 ⟨h0, rfl, rfl, fun r c h1 h2 => by omega⟩ ?_
  · obtain ⟨res, h1, h2, h3, h4, h5⟩ := key
    refine ⟨res, h1, h2, h3, h4, fun r c a1 a2 a3 a4 => h5 r c a1 (by omega) a3 a4⟩
  · intro i s hi ⟨sinv, srows, scols, scell⟩
    have inner := forRangeM_inv C (fun c result => body (i : Int) c result)
      (fun j res => res.Inv ∧ res.rows_ = res0.rows_ ∧ res.cols_ = res0.cols_ ∧
        (∀ r c, 0 ≤ r → r < (i : Int) → 0 ≤ c → c < C →
          res.getValue (tgt r c).1 (tgt r c).2 = .ok (f r c)) ∧
        ∀ c, 0 ≤ c → c < (j : Int) →
          res.getValue (tgt (i : Int) c).1 (tgt (i : Int) c).2 = .ok (f (i : Int) c))
      s ⟨sinv, srows, scols, scell, fun c h1 h2 => by omega⟩ ?_
    · obtain ⟨res, h1, h2, h3, h4, h5, h6⟩ := inner
      refine ⟨res, h1, h2, h3, h4, ?_⟩
      intro r c a1 a2 a3 a4
      by_cases hri : r < (i : Int)
      · exact h5 r c a1 hri a3 a4
      · have : r = (i : Int) := by omega
        subst this
        exact h6 c a3 (by omega)
    · intro j t hj ⟨tinv, trows, tcols, tprev, tcur⟩
      have hiR : (i : Int) < R := by omega
      have hjC : (j : Int) < C := by omega
      have hb : t.InBounds (tgt (i : Int) (j : Int)).1 (tgt (i : Int) (j : Int)).2 := by
        have := htgt i j (by omega) hiR (by omega) hjC
        unfold InBounds at this ⊢
        rw [trows, tcols]; exact this
      obtain ⟨t', e1, e2, e3, e4, e5, e6⟩ :=
        setLocal_spec tinv hb (f (i : Int) (j : Int))
      refine ⟨t', ?_, e2, by rw [e3, trows], by rw [e4, tcols], ?_, ?_⟩
      · show body (i : Int) (j : Int) t = .ok t'
        rw [hbody i j t (by omega) hiR (by omega) hjC]; exact e1
      · intro r c a1 a2 a3 a4
        rw [e6 _ _ ?_]
        · exact tprev r c a1 a2 a3 a4
        · by_contra hcon
          have heq : tgt r c = tgt (i : Int) (j : Int) := by
            apply Prod.ext <;> omega
          have := (hinj _ _ _ _ heq).1
          omega
      · intro c a1 a2
        by_cases hcj : c = (j : Int)
        · subst hcj; exact e5
        · rw [e6 _ _ ?_]
          · exact tcur c a1 (by omega)
          · by_contra hcon
            have heq : tgt (i : Int) c = tgt (i : Int) (j : Int) := by
              apply Prod.ext <;> omega
            exact hcj (hinj _ _ _ _ heq).2

/-! ## The arithmetic operations -/

theorem getValue_eq_cell {m : Matrix} (h : m.Inv) {r c : Int} (hb : m.InBounds r c) :
    m.getValue r c = .ok (m.cell r c) := by
  simp [cell, getValue_of_inBounds h hb]

theorem Inv.nonneg {m : Matrix} (h : m.Inv) : 0 ≤ m.rows_ ∧ 0 ≤ m.cols_ := by
  unfold Inv at h
  cases hd : m.data_ with
  | none => rw [hd] at h; simp only at h; omega
  | some d => rw [hd] at h; simp only at h; omega

theorem Inv.pos_iff {m : Matrix} (h : m.Inv) : 0 < m.rows_ ↔ 0 < m.cols_ := by
  unfold Inv at h
  cases hd : m.data_ with
  | none => rw [hd] at h; simp only at h; omega
  | some d => rw [hd] at h; simp only at h; omega

theorem rows_new (R C : Int) (hR : 0 ≤ R) (_hC : 0 ≤ C) (h : 0 < R ↔ 0 < C) :
    (Matrix.new R C).rows_ = R := by
  by_cases hp : 0 < R
  · rw [new_of_pos R C hp (h.mp hp)]
  · rw [new_of_nonpos R C (by omega)]; show (0 : Int) = R; omega

theorem cols_new (R C : Int) (hR : 0 ≤ R) (hC : 0 ≤ C) (h : 0 < R ↔ 0 < C) :
    (Matrix.new R C).cols_ = C := by
  by_cases hp : 0 < R
  · rw [new_of_pos R C hp (h.mp hp)]
  · rw [new_of_nonpos R C (by omega)]; show (0 : Int) = C; omega

/-- The elementwise loops of `add` and `subtract`, for an operation `op` on two cells. -/
theorem zip_loops (op : Int → Int → Int) (a b : Matrix) (ha : a.Inv) (hb : b.Inv)
    (hr : a.rows_ = b.rows_) (hc : a.cols_ = b.cols_) :
    ∃ m, forRangeM a.getRows (Matrix.new a.rows_ a.cols_) (fun r result =>
        forRangeM a.getCols result fun c result => do
          let elementA ← a.getValue r c
          let elementB ← b.getValue r c
          result.setLocal r c (op elementA elementB)) = .ok m ∧
      m.Inv ∧ m.rows_ = a.rows_ ∧ m.cols_ = a.cols_ ∧
      ∀ r c, m.InBounds r c → m.getValue r c = .ok (op (a.cell r c) (b.cell r c)) := by
  have hrows := rows_new a.rows_ a.cols_ ha.nonneg.1 ha.nonneg.2 ha.pos_iff
  have hcols := cols_new a.rows_ a.cols_ ha.nonneg.1 ha.nonneg.2 ha.pos_iff
  obtain ⟨m, h1, h2, h3, h4, h5⟩ := fill_spec a.getRows a.getCols
    (Matrix.new a.rows_ a.cols_) (inv_new _ _)
    (fun r c result => do
      let elementA ← a.getValue r c
      let elementB ← b.getValue r c
      result.setLocal r c (op elementA elementB))
    (fun r c => (r, c)) (fun r c => op (a.cell r c) (b.cell r c))
    (fun r c h1 h2 h3 h4 => by
      unfold InBounds; rw [hrows, hcols]; exact ⟨h1, h2, h3, h4⟩)
    (fun r c r' c' h => by simpa using h)
    (fun r c res h1 h2 h3 h4 => by
      have ba : a.InBounds r c := ⟨h1, h2, h3, h4⟩
      have bb : b.InBounds r c := ⟨h1, by rw [← hr]; exact h2, h3, by rw [← hc]; exact h4⟩
      simp only [getValue_eq_cell ha ba, getValue_eq_cell hb bb]
      rfl)
  refine ⟨m, h1, h2, by rw [h3, hrows], by rw [h4, hcols], ?_⟩
  intro r c hbm
  unfold InBounds at hbm
  rw [h3, h4, hrows, hcols] at hbm
  exact h5 r c hbm.1 hbm.2.1 hbm.2.2.1 hbm.2.2.2

theorem add_ok (a b : Matrix) (ha : a.Inv) (hb : b.Inv)
    (hr : a.rows_ = b.rows_) (hc : a.cols_ = b.cols_) :
    ∃ m, a.add b = .ok m ∧ m.Inv ∧ m.rows_ = a.rows_ ∧ m.cols_ = a.cols_ ∧
      ∀ r c, m.InBounds r c →
        m.getValue r c = .ok (wrap32 (a.cell r c + b.cell r c)) := by
  have hne : ¬ (a.rows_ ≠ b.getRows ∨ a.cols_ ≠ b.getCols) := by
    simp [getRows, getCols, hr, hc]
  obtain ⟨m, h1, h2⟩ := zip_loops (fun x y => wrap32 (x + y)) a b ha hb hr hc
  exact ⟨m, by rw [add, if_neg hne]; exact h1, h2⟩

theorem subtract_ok (a b : Matrix) (ha : a.Inv) (hb : b.Inv)
    (hr : a.rows_ = b.rows_) (hc : a.cols_ = b.cols_) :
    ∃ m, a.subtract b = .ok m ∧ m.Inv ∧ m.rows_ = a.rows_ ∧ m.cols_ = a.cols_ ∧
      ∀ r c, m.InBounds r c →
        m.getValue r c = .ok (wrap32 (a.cell r c - b.cell r c)) := by
  have hne : ¬ (a.getRows ≠ b.getRows ∨ a.getCols ≠ b.getCols) := by
    simp [getRows, getCols, hr, hc]
  obtain ⟨m, h1, h2⟩ := zip_loops (fun x y => wrap32 (x - y)) a b ha hb hr hc
  exact ⟨m, by rw [subtract, if_neg hne]; exact h1, h2⟩

/-- The accumulation loop of `multiply`: `suma` ends as the dot product of row `r` of `a`
and column `k` of `b`, reduced to 32 bits. -/
theorem dot_loop (a b : Matrix) (ha : a.Inv) (hb : b.Inv) (hcr : a.cols_ = b.rows_)
    (r k : Int) (hr0 : 0 ≤ r) (hr : r < a.rows_) (hk0 : 0 ≤ k) (hk : k < b.cols_) :
    forRangeM a.getCols (0 : Int) (fun j suma => do
        let x ← a.getValue r j
        let y ← b.getValue j k
        pure (wrap32 (suma + wrap32 (x * y)))) =
      .ok (wrap32 (∑ j ∈ Finset.range a.cols_.toNat, a.cell r j * b.cell j k)) := by
  have key := forRangeM_inv a.getCols
    (fun j suma => do
        let x ← a.getValue r j
        let y ← b.getValue j k
        pure (wrap32 (suma + wrap32 (x * y))))
    (fun i s => s = wrap32 (∑ j ∈ Finset.range i, a.cell r j * b.cell j k))
    0 (by simp [wrap32]) ?_
  · obtain ⟨s, h1, h2⟩ := key
    rw [h1, h2]; rfl
  · intro i s hi hs
    have hi' : (i : Int) < a.cols_ := by simp only [getCols] at hi; omega
    have ba : a.InBounds r i := ⟨hr0, hr, by omega, hi'⟩
    have bb : b.InBounds i k := ⟨by omega, by rw [← hcr]; exact hi', hk0, hk⟩
    refine ⟨_, by simp only [getValue_eq_cell ha ba, getValue_eq_cell hb bb]; rfl, ?_⟩
    show wrap32 (s + wrap32 (a.cell r i * b.cell i k)) =
      wrap32 (∑ j ∈ Finset.range (i + 1), a.cell r j * b.cell j k)
    rw [Finset.sum_range_succ, hs, wrap32_add_left, wrap32_add_right]

theorem multiply_ok (a b : Matrix) (ha : a.Inv) (hb : b.Inv) (hcr : a.cols_ = b.rows_) :
    ∃ m, a.multiply b = .ok m ∧ m.Inv ∧ m.rows_ = a.rows_ ∧ m.cols_ = b.cols_ ∧
      ∀ r k, m.InBounds r k →
        m.getValue r k =
          .ok (wrap32 (∑ j ∈ Finset.range a.cols_.toNat, a.cell r j * b.cell j k)) := by
  have hne : ¬ (a.getCols ≠ b.getRows) := by simp [getRows, getCols, hcr]
  have hiff : 0 < a.rows_ ↔ 0 < b.cols_ := by
    rw [ha.pos_iff, hcr, hb.pos_iff]
  have hrows := rows_new a.rows_ b.cols_ ha.nonneg.1 hb.nonneg.2 hiff
  have hcols := cols_new a.rows_ b.cols_ ha.nonneg.1 hb.nonneg.2 hiff
  obtain ⟨m, h1, h2, h3, h4, h5⟩ := fill_spec a.getRows b.getCols
    (Matrix.new a.rows_ b.cols_) (inv_new _ _)
    (fun r cB result => do
      let suma ← forRangeM a.getCols (0 : Int) fun k suma => do
        let x ← a.getValue r k
        let y ← b.getValue k cB
        pure (wrap32 (suma + wrap32 (x * y)))
      result.setLocal r cB suma)
    (fun r c => (r, c))
    (fun r k => wrap32 (∑ j ∈ Finset.range a.cols_.toNat, a.cell r j * b.cell j k))
    (fun r c h1 h2 h3 h4 => by
      unfold InBounds; rw [hrows, hcols]; exact ⟨h1, h2, h3, h4⟩)
    (fun r c r' c' h => by simpa using h)
    (fun r c res h1 h2 h3 h4 => by
      simp only [dot_loop a b ha hb hcr r c h1 h2 h3 h4]
      rfl)
  refine ⟨m, by rw [multiply, if_neg hne]; exact h1, h2, by rw [h3, hrows],
    by rw [h4, hcols], ?_⟩
  intro r c hbm
  unfold InBounds at hbm
  rw [h3, h4, hrows, hcols] at hbm
  exact h5 r c hbm.1 hbm.2.1 hbm.2.2.1 hbm.2.2.2

theorem transpose_ok (a : Matrix) (ha : a.Inv) :
    ∃ m, a.transpose = .ok m ∧ m.Inv ∧ m.rows_ = a.cols_ ∧ m.cols_ = a.rows_ ∧
      ∀ r c, a.InBounds r c → m.getValue c r = .ok (a.cell r c) := by
  have hrows := rows_new a.cols_ a.rows_ ha.nonneg.2 ha.nonneg.1 ha.pos_iff.symm
  have hcols := cols_new a.cols_ a.rows_ ha.nonneg.2 ha.nonneg.1 ha.pos_iff.symm
  obtain ⟨m, h1, h2, h3, h4, h5⟩ := fill_spec a.getRows a.getCols
    (Matrix.new a.cols_ a.rows_) (inv_new _ _)
    (fun r c result => do
      let v ← a.getValue r c
      result.setLocal c r v)
    (fun r c => (c, r)) (fun r c => a.cell r c)
    (fun r c h1 h2 h3 h4 => by
      unfold InBounds; rw [hrows, hcols]; exact ⟨h3, h4, h1, h2⟩)
    (fun r c r' c' h => by
      simp only [Prod.mk.injEq] at h; exact ⟨h.2, h.1⟩)
    (fun r c res h1 h2 h3 h4 => by
      have ba : a.InBounds r c := ⟨h1, h2, h3, h4⟩
      simp only [getValue_eq_cell ha ba]
      rfl)
  refine ⟨m, h1, h2, by rw [h3, hrows], by rw [h4, hcols], ?_⟩
  intro r c hba
  exact h5 r c hba.1 hba.2.1 hba.2.2.1 hba.2.2.2

theorem cell_of_getValue {m : Matrix} {r c v : Int} (h : m.getValue r c = .ok v) :
    m.cell r c = v := by
  simp [cell, h]

end Matrix

/-! ## The copy constructor -/

/-- The rule of the `for` loop for a body that does not throw. -/
theorem forRange_inv {σ : Type} (n : Int) (body : Int → σ → σ)
    (P : Nat → σ → Prop) (init : σ) (h0 : P 0 init)
    (hstep : ∀ (i : Nat) (s : σ), i < n.toNat → P i s → P (i + 1) (body (i : Int) s)) :
    P n.toNat (forRange n init body) := by
  unfold forRange
  generalize n.toNat = k at hstep ⊢
  induction k with
  | zero => exact h0
  | succ k ih =>
    rw [List.range_succ, List.foldl_append]
    exact hstep k _ (by omega) (ih (fun i s hi => hstep i s (by omega)))

/-- A loop on a state `g x` that follows, turn by turn, a loop on `x`. -/
theorem forRange_sim {α β : Type} (g : α → β) (n : Int) (f : Int → α → α) (f' : Int → β → β)
    (h : ∀ i x, f' i (g x) = g (f i x)) (x : α) :
    forRange n (g x) f' = g (forRange n x f) := by
  unfold forRange
  generalize List.range n.toNat = l
  induction l generalizing x with
  | nil => rfl
  | cons i l ih => simp only [List.foldl_cons, h, ih]

/-- The two loops of the copy constructor, from a zeroed buffer of the shape of `od`, end
with the cells of `od`. -/
theorem Buffer.copy_loops (od : Buffer) (R C : Int) (h : od.Rect R.toNat C.toNat) :
    (forRange R (Buffer.zeros R C) fun r d =>
      forRange C d fun c d => d.write r c (od.read r c)) = od := by
  have key := forRange_inv R
    (fun r d => forRange C d fun c d => Buffer.write d r c (od.read r c))
    (fun i d => d.Rect R.toNat C.toNat ∧
      ∀ r c : Nat, r < i → c < C.toNat → Buffer.read d r c = od.read r c)
    (Buffer.zeros R C) ⟨Buffer.rect_zeros R C, fun r c hr => by omega⟩ ?_
  · exact Buffer.rect_ext _ _ _ _ key.1 h (fun r c hr hc => key.2 r c hr hc)
  · intro i d hi ⟨drect, dcell⟩
    have inner := forRange_inv C (fun c d => Buffer.write d (i : Int) c (od.read (i : Int) c))
      (fun j d => d.Rect R.toNat C.toNat ∧
        (∀ r c : Nat, r < i → c < C.toNat → Buffer.read d r c = od.read r c) ∧
        ∀ c : Nat, c < j → Buffer.read d i c = od.read i c)
      d ⟨drect, dcell, fun c hc => by omega⟩ ?_
    · refine ⟨inner.1, ?_⟩
      intro r c hr hc
      by_cases hri : r < i
      · exact inner.2.1 r c hri hc
      · have : r = i := by omega
        subst this
        exact inner.2.2 c hc
    · intro j t hj ⟨trect, tprev, tcur⟩
      refine ⟨Buffer.rect_write t _ _ trect _ _ _, ?_, ?_⟩
      · intro r c hr hc
        rw [Buffer.read_write_other _ _ _ _ _ _ (by left; simp; omega)]
        exact tprev r c hr hc
      · intro c hc
        by_cases hcj : c = j
        · subst hcj
          exact Buffer.read_write_same t _ _ trect _ _ _ (by simpa using hi) (by simpa using hj)
        · rw [Buffer.read_write_other _ _ _ _ _ _ (by right; simp; omega)]
          exact tcur c (by omega)

namespace Matrix

/-- The copy constructor builds the matrix it copies: the same shape and the same cells. -/
theorem copy_eq_self (m : Matrix) (h : m.Inv) : m.copy = m := by
  obtain ⟨R, C, d⟩ := m
  cases d with
  | none =>
    have h' : R = 0 ∧ C = 0 := h
    obtain ⟨rfl, rfl⟩ := h'
    rfl
  | some od =>
    have h' : 0 < R ∧ 0 < C ∧ od.Rect R.toNat C.toNat := h
    have hne : ¬ (R ≤ 0 ∨ C ≤ 0) := by omega
    simp only [copy, allocateMatrix, if_neg hne]
    rw [Buffer.copy_loops od R C h'.2.2]

end Matrix

/-! ## The copy constructor in the free store -/

theorem Store.read_other_address (s : Store) (p p' : Nat) (r c v r' c' : Int) (h : p' ≠ p) :
    (s.write p r c v).read p' r' c' = s.read p' r' c' := by
  simp only [Store.read, Store.write, List.getD_eq_getElem?_getD, List.getElem?_set]
  rw [if_neg (fun e => h e.symm)]

theorem Store.read_after_write (s : Store) (p : Nat) (R C : Nat) (hp : p < s.buffers.length)
    (hrect : (s.buffers.getD p []).Rect R C) (r c v : Int) (hr : r.toNat < R)
    (hc : c.toNat < C) : (s.write p r c v).read p r c = v := by
  have e : (s.write p r c v).buffers.getD p [] = (s.buffers.getD p []).write r c v := by
    simp [Store.write, List.getD_eq_getElem?_getD, List.getElem?_set, hp]
  rw [Store.read, e, Buffer.read_write_same _ R C hrect r c v hr hc]

namespace MatrixObj

theorem getValue_of_none (s : Store) (m : MatrixObj) (h : m.data_ = none) (r c : Int) :
    getValue s m r c = .error .outOfRange := by
  simp [getValue, h]

theorem getValue_of_some (s : Store) (m : MatrixObj) (p : Nat) (h : m.data_ = some p)
    (r c : Int) (hr0 : 0 ≤ r) (hr : r < m.rows_) (hc0 : 0 ≤ c) (hc : c < m.cols_) :
    getValue s m r c = .ok (s.read p r c) := by
  have : ¬ (r < 0 ∨ r ≥ m.rows_ ∨ c < 0 ∨ c ≥ m.cols_ ∨ m.data_ = none) := by
    simp [h]; omega
  rw [getValue, if_neg this, h]

theorem getValue_of_outside (s : Store) (m : MatrixObj) (r c : Int)
    (h : r < 0 ∨ r ≥ m.rows_ ∨ c < 0 ∨ c ≥ m.cols_) :
    getValue s m r c = .error .outOfRange := by
  have : r < 0 ∨ r ≥ m.rows_ ∨ c < 0 ∨ c ≥ m.cols_ ∨ m.data_ = none := by omega
  simp [getValue, this]

theorem setValue_of_some (s : Store) (m : MatrixObj) (p : Nat) (h : m.data_ = some p)
    (r c v : Int) (hr0 : 0 ≤ r) (hr : r < m.rows_) (hc0 : 0 ≤ c) (hc : c < m.cols_) :
    setValue s m r c v = (.ok (), s.write p r c v) := by
  have : ¬ (r < 0 ∨ r ≥ m.rows_ ∨ c < 0 ∨ c ≥ m.cols_ ∨ m.data_ = none) := by
    simp [h]; omega
  rw [setValue, if_neg this, h]

/-- A write through another address than that of the buffer of `m` leaves what `getValue`
returns on `m`. -/
theorem getValue_write_other (s : Store) (m : MatrixObj) (p q : Nat) (hd : m.data_ = some q)
    (hne : q ≠ p) (r c v r' c' : Int) :
    getValue (s.write p r c v) m r' c' = getValue s m r' c' := by
  by_cases hb : r' < 0 ∨ r' ≥ m.rows_ ∨ c' < 0 ∨ c' ≥ m.cols_
  · rw [getValue_of_outside _ m r' c' hb, getValue_of_outside _ m r' c' hb]
  · rw [getValue_of_some _ m q hd r' c' (by omega) (by omega) (by omega) (by omega),
      getValue_of_some _ m q hd r' c' (by omega) (by omega) (by omega) (by omega),
      Store.read_other_address _ _ _ _ _ _ _ _ hne]

/-- After a write through the address of the buffer of `m`, inside the shape, `getValue`
returns the value written. -/
theorem getValue_write_same (s : Store) (m : MatrixObj) (q : Nat) (hd : m.data_ = some q)
    (hq : q < s.buffers.length)
    (hrect : (s.buffers.getD q []).Rect m.rows_.toNat m.cols_.toNat) (r c v : Int)
    (hr0 : 0 ≤ r) (hr : r < m.rows_) (hc0 : 0 ≤ c) (hc : c < m.cols_) :
    getValue (s.write q r c v) m r c = .ok v := by
  rw [getValue_of_some _ m q hd r c hr0 hr hc0 hc,
    Store.read_after_write s q _ _ hq hrect r c v (by omega) (by omega)]

/-- The copy constructor on an object without a buffer allocates nothing. -/
theorem copy_of_none (s : Store) (m : MatrixObj) (hm : m.Valid s) (h : m.data_ = none) :
    copy s m = (s, { rows_ := 0, cols_ := 0, data_ := none }) := by
  unfold Valid at hm
  rw [h] at hm
  simp [copy, allocateMatrix, hm.1]

/-- The copy constructor on an object with a buffer allocates one buffer, at the next
address, and fills it with the cells of the buffer it copies. -/
theorem copy_of_some (s : Store) (m : MatrixObj) (hm : m.Valid s) (q : Nat)
    (h : m.data_ = some q) :
    copy s m = ({ buffers := s.buffers ++ [s.buffers.getD q []] },
      { rows_ := m.rows_, cols_ := m.cols_, data_ := some s.buffers.length }) := by
  unfold Valid at hm
  rw [h] at hm
  obtain ⟨hq, hR, hC, hrect⟩ := hm
  have hne : ¬ (m.rows_ ≤ 0 ∨ m.cols_ ≤ 0) := by omega
  simp only [copy, allocateMatrix, if_neg hne, h]
  congr 1
  have step : ∀ (r c : Int) (d : Buffer),
      Store.write { buffers := s.buffers ++ [d] } s.buffers.length r c
        (Store.read { buffers := s.buffers ++ [d] } q r c) =
      { buffers := s.buffers ++ [d.write r c ((s.buffers.getD q []).read r c)] } := by
    intro r c d
    simp [Store.write, Store.read, List.getD_eq_getElem?_getD, List.getElem?_append_left, hq]
  rw [forRange_sim (fun d => ({ buffers := s.buffers ++ [d] } : Store)) m.rows_
    (fun r d => forRange m.cols_ d fun c d =>
      Buffer.write d r c ((s.buffers.getD q []).read r c))]
  · rw [Buffer.copy_loops _ _ _ hrect]
  · intro r d
    rw [forRange_sim (fun d => ({ buffers := s.buffers ++ [d] } : Store)) m.cols_
      (fun c d => Buffer.write d r c ((s.buffers.getD q []).read r c))]
    intro c d'
    exact step r c d'

/-- On an object of the store `getValue` returns what it returns on the matrix the object
stands for. -/
theorem getValue_load (s : Store) (m : MatrixObj) (r c : Int) :
    getValue s m r c = (m.load s).getValue r c := by
  cases hd : m.data_ with
  | none => simp [getValue, Matrix.getValue, load, hd]
  | some p =>
    by_cases hb : r < 0 ∨ r ≥ m.rows_ ∨ c < 0 ∨ c ≥ m.cols_
    · rw [getValue_of_outside s m r c hb]
      have : r < 0 ∨ r ≥ (m.load s).getRows ∨ c < 0 ∨ c ≥ (m.load s).getCols ∨
          (m.load s).data_ = none := by
        simp only [load, Matrix.getRows, Matrix.getCols]; omega
      simp [Matrix.getValue, this]
    · rw [getValue_of_some s m p hd r c (by omega) (by omega) (by omega) (by omega)]
      have : ¬ (r < 0 ∨ r ≥ (m.load s).getRows ∨ c < 0 ∨ c ≥ (m.load s).getCols ∨
          (m.load s).data_ = none) := by
        simp only [load, Matrix.getRows, Matrix.getCols, hd]; simp; omega
      rw [Matrix.getValue, if_neg this]
      simp [load, hd, Matrix.buffer, Store.read]

/-- The invariant of an object of the store is the invariant of the matrix it stands
for. -/
theorem Valid.inv_load {s : Store} {m : MatrixObj} (h : m.Valid s) : (m.load s).Inv := by
  unfold Valid at h
  cases hd : m.data_ with
  | none => rw [hd] at h; simpa [Matrix.Inv, load, hd] using h
  | some p => rw [hd] at h; simpa [Matrix.Inv, load, hd] using h.2

/-- On an object of the store `setValue` throws when it throws on the matrix the object
stands for, and the object then stands for the matrix `setValue` leaves. -/
theorem setValue_load (s : Store) (m : MatrixObj) (h : m.Valid s) (r c v : Int) :
    (setValue s m r c v).1 = ((m.load s).setValue r c v).1 ∧
    m.load (setValue s m r c v).2 = ((m.load s).setValue r c v).2 := by
  cases hd : m.data_ with
  | none => simp [setValue, Matrix.setValue, load, hd]
  | some p =>
    have hv := h
    unfold Valid at hv
    rw [hd] at hv
    by_cases hb : r < 0 ∨ r ≥ m.rows_ ∨ c < 0 ∨ c ≥ m.cols_
    · have h1 : r < 0 ∨ r ≥ m.rows_ ∨ c < 0 ∨ c ≥ m.cols_ ∨ m.data_ = none := by omega
      have h2 : r < 0 ∨ r ≥ (m.load s).getRows ∨ c < 0 ∨ c ≥ (m.load s).getCols ∨
          (m.load s).data_ = none := by
        simp only [load, Matrix.getRows, Matrix.getCols]; omega
      simp [setValue, Matrix.setValue, h1, h2]
    · rw [setValue_of_some s m p hd r c v (by omega) (by omega) (by omega) (by omega)]
      have h2 : ¬ (r < 0 ∨ r ≥ (m.load s).getRows ∨ c < 0 ∨ c ≥ (m.load s).getCols ∨
          (m.load s).data_ = none) := by
        simp only [load, Matrix.getRows, Matrix.getCols, hd]; simp; omega
      rw [Matrix.setValue, if_neg h2]
      simp [load, hd, Matrix.buffer, Store.write, List.getD_eq_getElem?_getD,
        List.getElem?_set, hv.1]

/-- The object the copy constructor builds stands for the matrix the copy constructor
builds from the matrix the source stands for. -/
theorem copy_load (s : Store) (m : MatrixObj) (h : m.Valid s) :
    (copy s m).2.load (copy s m).1 = (m.load s).copy := by
  rw [Matrix.copy_eq_self _ h.inv_load]
  cases hd : m.data_ with
  | none =>
    have hv := h
    unfold Valid at hv
    rw [hd] at hv
    rw [copy_of_none s m h hd]
    simp [load, hd, hv.1, hv.2]
  | some q =>
    rw [copy_of_some s m h q hd]
    simp [load, hd, List.getD_eq_getElem?_getD]

end MatrixObj

namespace Matrix

/-! ## C1: multiplication -/

/-- C1: for matrices `a` and `b` with `a.cols == b.rows`, `multiply(a, b)` returns a matrix
of shape `(a.rows, b.cols)` whose cell `(r, k)`, for `r` in `[0, a.rows)` and `k` in
`[0, b.cols)`, is the sum over `j` in `[0, a.cols)` of `a[r][j] * b[j][k]` in `int`
arithmetic: the sum reduced to 32 bits, which is the sum itself where it fits an `int`
(`a.cell r j` and `b.cell j k` being what `getValue` returns there).
And `[[1,2,3],[4,5,6]] * [[7,8],[9,10],[11,12]]` is `[[58,64],[139,154]]`. -/
theorem multiply_spec (a b : Matrix) (ha : a.Inv) (hb : b.Inv) (hcr : a.cols_ = b.rows_) :
    (∃ m, a.multiply b = .ok m ∧ m.rows_ = a.rows_ ∧ m.cols_ = b.cols_ ∧
      ∀ r k : Int, 0 ≤ r → r < a.rows_ → 0 ≤ k → k < b.cols_ →
        (∀ j : Int, 0 ≤ j → j < a.cols_ →
          a.getValue r j = .ok (a.cell r j) ∧ b.getValue j k = .ok (b.cell j k)) ∧
        m.getValue r k =
          .ok (wrap32 (∑ j ∈ Finset.range a.cols_.toNat, a.cell r j * b.cell j k)) ∧
        (-2147483648 ≤ ∑ j ∈ Finset.range a.cols_.toNat, a.cell r j * b.cell j k →
          ∑ j ∈ Finset.range a.cols_.toNat, a.cell r j * b.cell j k < 2147483648 →
          m.getValue r k =
            .ok (∑ j ∈ Finset.range a.cols_.toNat, a.cell r j * b.cell j k))) ∧
    (ofRows 2 3 [[1, 2, 3], [4, 5, 6]]).multiply (ofRows 3 2 [[7, 8], [9, 10], [11, 12]]) =
      .ok (ofRows 2 2 [[58, 64], [139, 154]]) := by
  refine ⟨?_, by decide⟩
  obtain ⟨m, h1, -, h3, h4, h5⟩ := multiply_ok a b ha hb hcr
  refine ⟨m, h1, h3, h4, ?_⟩
  intro r k hr0 hr hk0 hk
  have hm : m.InBounds r k := ⟨hr0, by rw [h3]; exact hr, hk0, by rw [h4]; exact hk⟩
  refine ⟨fun j hj0 hj => ⟨getValue_eq_cell ha ⟨hr0, hr, hj0, hj⟩,
    getValue_eq_cell hb ⟨hj0, by rw [← hcr]; exact hj, hk0, hk⟩⟩, h5 r k hm, fun lo hi => ?_⟩
  rw [h5 r k hm, wrap32_of_range _ lo hi]

/-- C1 at `a = [[1,2,3],[4,5,6]]` and `b = [[7,8],[9,10],[11,12]]`: the product has shape
`(2, 2)` and its cell `(1, 1)` is `4 * 8 + 5 * 10 + 6 * 12 = 154`. -/
theorem multiply_spec_witness :
    (ofRows 2 3 [[1, 2, 3], [4, 5, 6]]).Inv ∧ (ofRows 3 2 [[7, 8], [9, 10], [11, 12]]).Inv ∧
    ∃ m, (ofRows 2 3 [[1, 2, 3], [4, 5, 6]]).multiply
        (ofRows 3 2 [[7, 8], [9, 10], [11, 12]]) = .ok m ∧
      m.rows_ = 2 ∧ m.cols_ = 2 ∧ m.getValue 1 1 = .ok 154 := by
  refine ⟨by decide, by decide, ?_⟩
  obtain ⟨m, h1, h2, h3, h4⟩ := (multiply_spec (ofRows 2 3 [[1, 2, 3], [4, 5, 6]])
    (ofRows 3 2 [[7, 8], [9, 10], [11, 12]]) (by decide) (by decide) rfl).1
  refine ⟨m, h1, h2, h3, ?_⟩
  rw [(h4 1 1 (by decide) (by decide) (by decide) (by decide)).2.1]
  decide

/-! ## C2, C3: addition and subtraction -/

/-- C2: for matrices `a` and `b` of one shape, `add(a, b)` returns a matrix of the shape of
`a` whose cell `(r, c)`, for every `(r, c)` inside the shape, is `a[r][c] + b[r][c]` in
`int` arithmetic: the sum reduced to 32 bits, which is the sum itself where it fits an
`int`. And `[[1,0,0],[0,1,0]] + [[10,0,0],[0,10,0]]` is `[[11,0,0],[0,11,0]]`. -/
theorem add_spec (a b : Matrix) (ha : a.Inv) (hb : b.Inv)
    (hrs : a.rows_ = b.rows_) (hcs : a.cols_ = b.cols_) :
    (∃ m, a.add b = .ok m ∧ m.rows_ = a.rows_ ∧ m.cols_ = a.cols_ ∧
      ∀ r c : Int, 0 ≤ r → r < a.rows_ → 0 ≤ c → c < a.cols_ →
        ∃ x y, a.getValue r c = .ok x ∧ b.getValue r c = .ok y ∧
          m.getValue r c = .ok (wrap32 (x + y)) ∧
          (-2147483648 ≤ x + y → x + y < 2147483648 → m.getValue r c = .ok (x + y))) ∧
    (ofRows 2 3 [[1, 0, 0], [0, 1, 0]]).add (ofRows 2 3 [[10, 0, 0], [0, 10, 0]]) =
      .ok (ofRows 2 3 [[11, 0, 0], [0, 11, 0]]) := by
  refine ⟨?_, by decide⟩
  obtain ⟨m, h1, -, h3, h4, h5⟩ := add_ok a b ha hb hrs hcs
  refine ⟨m, h1, h3, h4, ?_⟩
  intro r c hr0 hr hc0 hc
  have hm : m.InBounds r c := ⟨hr0, by rw [h3]; exact hr, hc0, by rw [h4]; exact hc⟩
  have hba : a.InBounds r c := ⟨hr0, hr, hc0, hc⟩
  have hbb : b.InBounds r c := ⟨hr0, by rw [← hrs]; exact hr, hc0, by rw [← hcs]; exact hc⟩
  refine ⟨a.cell r c, b.cell r c, getValue_eq_cell ha hba, getValue_eq_cell hb hbb,
    h5 r c hm, fun lo hi => ?_⟩
  rw [h5 r c hm, wrap32_of_range _ lo hi]

/-- C2 at `a = [[1,0,0],[0,1,0]]` and `b = [[10,0,0],[0,10,0]]`: the sum has shape `(2, 3)`
and its cell `(1, 1)` is `1 + 10 = 11`. -/
theorem add_spec_witness :
    (ofRows 2 3 [[1, 0, 0], [0, 1, 0]]).Inv ∧ (ofRows 2 3 [[10, 0, 0], [0, 10, 0]]).Inv ∧
    ∃ m, (ofRows 2 3 [[1, 0, 0], [0, 1, 0]]).add (ofRows 2 3 [[10, 0, 0], [0, 10, 0]]) =
        .ok m ∧
      m.rows_ = 2 ∧ m.cols_ = 3 ∧ m.getValue 1 1 = .ok 11 := by
  refine ⟨by decide, by decide, ?_⟩
  obtain ⟨m, h1, h2, h3, h4⟩ := (add_spec (ofRows 2 3 [[1, 0, 0], [0, 1, 0]])
    (ofRows 2 3 [[10, 0, 0], [0, 10, 0]]) (by decide) (by decide) rfl rfl).1
  refine ⟨m, h1, h2, h3, ?_⟩
  obtain ⟨x, y, hx, hy, hv, -⟩ := h4 1 1 (by decide) (by decide) (by decide) (by decide)
  have ex : x = 1 := by
    have e : Except.ok x = (Except.ok 1 : Except MatrixError Int) := by rw [← hx]; decide
    exact Except.ok.inj e
  have ey : y = 10 := by
    have e : Except.ok y = (Except.ok 10 : Except MatrixError Int) := by rw [← hy]; decide
    exact Except.ok.inj e
  rw [hv, ex, ey]
  decide

/-- C3: for matrices `a` and `b` of one shape, `subtract(a, b)` returns a matrix of the
shape of `a` whose cell `(r, c)`, for every `(r, c)` inside the shape, is
`a[r][c] - b[r][c]`, this minus other, in `int` arithmetic: the difference reduced to 32
bits, which is the difference itself where it fits an `int`. -/
theorem subtract_spec (a b : Matrix) (ha : a.Inv) (hb : b.Inv)
    (hrs : a.rows_ = b.rows_) (hcs : a.cols_ = b.cols_) :
    ∃ m, a.subtract b = .ok m ∧ m.rows_ = a.rows_ ∧ m.cols_ = a.cols_ ∧
      ∀ r c : Int, 0 ≤ r → r < a.rows_ → 0 ≤ c → c < a.cols_ →
        ∃ x y, a.getValue r c = .ok x ∧ b.getValue r c = .ok y ∧
          m.getValue r c = .ok (wrap32 (x - y)) ∧
          (-2147483648 ≤ x - y → x - y < 2147483648 → m.getValue r c = .ok (x - y)) := by
  obtain ⟨m, h1, -, h3, h4, h5⟩ := subtract_ok a b ha hb hrs hcs
  refine ⟨m, h1, h3, h4, ?_⟩
  intro r c hr0 hr hc0 hc
  have hm : m.InBounds r c := ⟨hr0, by rw [h3]; exact hr, hc0, by rw [h4]; exact hc⟩
  have hba : a.InBounds r c := ⟨hr0, hr, hc0, hc⟩
  have hbb : b.InBounds r c := ⟨hr0, by rw [← hrs]; exact hr, hc0, by rw [← hcs]; exact hc⟩
  refine ⟨a.cell r c, b.cell r c, getValue_eq_cell ha hba, getValue_eq_cell hb hbb,
    h5 r c hm, fun lo hi => ?_⟩
  rw [h5 r c hm, wrap32_of_range _ lo hi]

/-- C3 at `a = [[5,7],[1,0]]` and `b = [[2,9],[0,4]]`: the difference is
`[[3,-2],[1,-4]]`, this minus other. -/
theorem subtract_spec_witness :
    (ofRows 2 2 [[5, 7], [1, 0]]).Inv ∧ (ofRows 2 2 [[2, 9], [0, 4]]).Inv ∧
    (ofRows 2 2 [[5, 7], [1, 0]]).subtract (ofRows 2 2 [[2, 9], [0, 4]]) =
      .ok (ofRows 2 2 [[3, -2], [1, -4]]) ∧
    ∃ m, (ofRows 2 2 [[5, 7], [1, 0]]).subtract (ofRows 2 2 [[2, 9], [0, 4]]) = .ok m ∧
      m.rows_ = 2 ∧ m.cols_ = 2 ∧ m.getValue 0 1 = .ok (-2) := by
  refine ⟨by decide, by decide, by decide, ?_⟩
  obtain ⟨m, h1, h2, h3, h4⟩ := subtract_spec (ofRows 2 2 [[5, 7], [1, 0]])
    (ofRows 2 2 [[2, 9], [0, 4]]) (by decide) (by decide) rfl rfl
  refine ⟨m, h1, h2, h3, ?_⟩
  obtain ⟨x, y, hx, hy, hv, -⟩ := h4 0 1 (by decide) (by decide) (by decide) (by decide)
  have ex : x = 7 := by
    have e : Except.ok x = (Except.ok 7 : Except MatrixError Int) := by rw [← hx]; decide
    exact Except.ok.inj e
  have ey : y = 9 := by
    have e : Except.ok y = (Except.ok 9 : Except MatrixError Int) := by rw [← hy]; decide
    exact Except.ok.inj e
  rw [hv, ex, ey]
  decide

/-! ## C4: transpose -/

/-- C4: for every matrix `a`, `transpose(a)` returns a matrix of shape `(a.cols, a.rows)`
whose cell `(c, r)` is `a[r][c]` for every `r` in `[0, a.rows)` and `c` in `[0, a.cols)`;
the transpose of a `(0, 0)` matrix is a `(0, 0)` matrix; and the transpose of
`[[1,2,3],[4,5,6]]` is `[[1,4],[2,5],[3,6]]`. -/
theorem transpose_spec (a : Matrix) (ha : a.Inv) :
    (∃ m, a.transpose = .ok m ∧ m.rows_ = a.cols_ ∧ m.cols_ = a.rows_ ∧
      (∀ r c : Int, 0 ≤ r → r < a.rows_ → 0 ≤ c → c < a.cols_ →
        ∃ v, a.getValue r c = .ok v ∧ m.getValue c r = .ok v) ∧
      (a.rows_ = 0 → a.cols_ = 0 → m.rows_ = 0 ∧ m.cols_ = 0)) ∧
    (Matrix.new 0 0).transpose = .ok (Matrix.new 0 0) ∧
    (ofRows 2 3 [[1, 2, 3], [4, 5, 6]]).transpose =
      .ok (ofRows 3 2 [[1, 4], [2, 5], [3, 6]]) := by
  refine ⟨?_, by decide, by decide⟩
  obtain ⟨m, h1, -, h3, h4, h5⟩ := transpose_ok a ha
  refine ⟨m, h1, h3, h4, ?_, fun e1 e2 => ⟨by rw [h3, e2], by rw [h4, e1]⟩⟩
  intro r c hr0 hr hc0 hc
  have hba : a.InBounds r c := ⟨hr0, hr, hc0, hc⟩
  exact ⟨a.cell r c, getValue_eq_cell ha hba, h5 r c hba⟩

/-- C4 at `a = [[1,2,3],[4,5,6]]`: the transpose has shape `(3, 2)` and its cell `(2, 1)`
is `a[1][2] = 6`. -/
theorem transpose_spec_witness :
    (ofRows 2 3 [[1, 2, 3], [4, 5, 6]]).Inv ∧
    ∃ m, (ofRows 2 3 [[1, 2, 3], [4, 5, 6]]).transpose = .ok m ∧
      m.rows_ = 3 ∧ m.cols_ = 2 ∧ m.getValue 2 1 = .ok 6 := by
  refine ⟨by decide, ?_⟩
  obtain ⟨m, h1, h2, h3, h4, -⟩ :=
    (transpose_spec (ofRows 2 3 [[1, 2, 3], [4, 5, 6]]) (by decide)).1
  refine ⟨m, h1, h2, h3, ?_⟩
  obtain ⟨v, hv, hm⟩ := h4 1 2 (by decide) (by decide) (by decide) (by decide)
  have ev : v = 6 := by
    have e : Except.ok v = (Except.ok 6 : Except MatrixError Int) := by rw [← hv]; decide
    exact Except.ok.inj e
  rw [hm, ev]

/-! ## C5: the result of an operation on incompatible shapes -/

/-- C5: when the shapes of `a` and `b` differ, `add(a, b)` and `subtract(a, b)` each
return a matrix of shape `(0, 0)`; when `a.cols != b.rows`, `multiply(a, b)` returns a
matrix of shape `(0, 0)`; the sum of a 2x3 and a 3x2 matrix has shape `(0, 0)`. -/
theorem mismatch_spec (a b : Matrix) :
    (a.rows_ ≠ b.rows_ ∨ a.cols_ ≠ b.cols_ →
      (∃ m, a.add b = .ok m ∧ m.rows_ = 0 ∧ m.cols_ = 0) ∧
      (∃ m, a.subtract b = .ok m ∧ m.rows_ = 0 ∧ m.cols_ = 0)) ∧
    (a.cols_ ≠ b.rows_ → ∃ m, a.multiply b = .ok m ∧ m.rows_ = 0 ∧ m.cols_ = 0) ∧
    ∃ m, (Matrix.new 2 3).add (Matrix.new 3 2) = .ok m ∧ m.rows_ = 0 ∧ m.cols_ = 0 := by
  refine ⟨fun h => ⟨⟨Matrix.new 0 0, ?_, rfl, rfl⟩, ⟨Matrix.new 0 0, ?_, rfl, rfl⟩⟩,
    fun h => ⟨Matrix.new 0 0, ?_, rfl, rfl⟩, ⟨Matrix.new 0 0, by decide, rfl, rfl⟩⟩
  · have h' : a.rows_ ≠ b.getRows ∨ a.cols_ ≠ b.getCols := h
    rw [add, if_pos h']
  · have h' : a.getRows ≠ b.getRows ∨ a.getCols ≠ b.getCols := h
    rw [subtract, if_pos h']
  · have h' : a.getCols ≠ b.getRows := h
    rw [multiply, if_pos h']

/-- C5 at a 2x3 and a 3x2 matrix, whose shapes differ, and at two 2x3 matrices, whose
`cols` and `rows` differ. -/
theorem mismatch_spec_witness :
    (∃ m, (ofRows 2 3 [[1, 2, 3], [4, 5, 6]]).add (ofRows 3 2 [[7, 8], [9, 10], [11, 12]]) =
        .ok m ∧ m.rows_ = 0 ∧ m.cols_ = 0) ∧
    (∃ m, (ofRows 2 3 [[1, 2, 3], [4, 5, 6]]).subtract
        (ofRows 3 2 [[7, 8], [9, 10], [11, 12]]) = .ok m ∧ m.rows_ = 0 ∧ m.cols_ = 0) ∧
    ∃ m, (ofRows 2 3 [[1, 2, 3], [4, 5, 6]]).multiply (ofRows 2 3 [[1, 0, 0], [0, 1, 0]]) =
        .ok m ∧ m.rows_ = 0 ∧ m.cols_ = 0 :=
  ⟨((mismatch_spec (ofRows 2 3 [[1, 2, 3], [4, 5, 6]])
      (ofRows 3 2 [[7, 8], [9, 10], [11, 12]])).1 (by decide)).1,
   ((mismatch_spec (ofRows 2 3 [[1, 2, 3], [4, 5, 6]])
      (ofRows 3 2 [[7, 8], [9, 10], [11, 12]])).1 (by decide)).2,
   (mismatch_spec (ofRows 2 3 [[1, 2, 3], [4, 5, 6]])
      (ofRows 2 3 [[1, 0, 0], [0, 1, 0]])).2.1 (by decide)⟩

/-! ## C6, C7: the accessors -/

/-- C6: `getValue(r, c)` throws `std::out_of_range` if and only if `r < 0` or `r >= rows`
or `c < 0` or `c >= cols`, so that every access to a `(0, 0)` matrix throws; `setValue`
throws under the same condition and then leaves the matrix as it was; on a fresh 2x3
matrix `setValue(4, 0, 1)` throws and the matrix is still all zeros. -/
theorem bounds_spec (m : Matrix) (hm : m.Inv) (r c v : Int) :
    (m.getValue r c = .error .outOfRange ↔ (r < 0 ∨ r ≥ m.rows_ ∨ c < 0 ∨ c ≥ m.cols_)) ∧
    (m.rows_ = 0 → m.cols_ = 0 → m.getValue r c = .error .outOfRange) ∧
    ((m.setValue r c v).1 = .error .outOfRange ↔
      (r < 0 ∨ r ≥ m.rows_ ∨ c < 0 ∨ c ≥ m.cols_)) ∧
    ((m.setValue r c v).1 = .error .outOfRange → (m.setValue r c v).2 = m) ∧
    (Matrix.new 2 3).setValue 4 0 1 =
      (.error .outOfRange, ofRows 2 3 [[0, 0, 0], [0, 0, 0]]) := by
  have hiff : m.InBounds r c ↔ ¬ (r < 0 ∨ r ≥ m.rows_ ∨ c < 0 ∨ c ≥ m.cols_) := by
    unfold InBounds; omega
  refine ⟨?_, ?_, ?_, ?_, by decide⟩
  · by_cases hb : m.InBounds r c
    · rw [getValue_of_inBounds hm hb]
      constructor
      · intro h; cases h
      · intro h; exact absurd h (hiff.mp hb)
    · rw [getValue_of_not_inBounds m hb]
      constructor
      · intro _; by_contra hcon; exact hb (hiff.mpr hcon)
      · intro _; rfl
  · intro h1 h2
    apply getValue_of_not_inBounds
    unfold InBounds; omega
  · by_cases hb : m.InBounds r c
    · rw [setValue_of_inBounds hm hb]
      constructor
      · intro h; cases h
      · intro h; exact absurd h (hiff.mp hb)
    · rw [setValue_of_not_inBounds m hb]
      constructor
      · intro _; by_contra hcon; exact hb (hiff.mpr hcon)
      · intro _; rfl
  · by_cases hb : m.InBounds r c
    · rw [setValue_of_inBounds hm hb]
      intro h; cases h
    · rw [setValue_of_not_inBounds m hb]
      intro _; rfl

/-- C6 on a fresh 2x3 matrix: `getValue(4, 0)` and `setValue(4, 0, 1)` throw, the matrix is
unchanged, and `getValue(1, 2)` does not throw. -/
theorem bounds_spec_witness :
    (Matrix.new 2 3).Inv ∧
    (Matrix.new 2 3).getValue 4 0 = .error .outOfRange ∧
    ((Matrix.new 2 3).setValue 4 0 1).1 = .error .outOfRange ∧
    ((Matrix.new 2 3).setValue 4 0 1).2 = Matrix.new 2 3 ∧
    (Matrix.new 2 3).getValue 1 2 ≠ .error .outOfRange := by
  have h := bounds_spec (Matrix.new 2 3) (by decide) 4 0 1
  have h' := bounds_spec (Matrix.new 2 3) (by decide) 1 2 1
  refine ⟨by decide, h.1.mpr (by decide), h.2.2.1.mpr (by decide),
    h.2.2.2.1 (h.2.2.1.mpr (by decide)), fun e => ?_⟩
  have := h'.1.mp e
  revert this
  decide

/-- C7: after a `setValue(r, c, v)` inside the shape, which returns, `getValue(r, c)` is
`v`, the shape is as before, and `getValue(r', c')` is as before for every other
`(r', c')` inside the shape. -/
theorem set_get_spec (m : Matrix) (hm : m.Inv) (r c v : Int)
    (hr0 : 0 ≤ r) (hr : r < m.rows_) (hc0 : 0 ≤ c) (hc : c < m.cols_) :
    ∃ m', m.setValue r c v = (.ok (), m') ∧
      m'.getValue r c = .ok v ∧ m'.rows_ = m.rows_ ∧ m'.cols_ = m.cols_ ∧
      ∀ r' c' : Int, 0 ≤ r' → r' < m.rows_ → 0 ≤ c' → c' < m.cols_ → (r' ≠ r ∨ c' ≠ c) →
        m'.getValue r' c' = m.getValue r' c' ∧ ∃ w, m.getValue r' c' = .ok w := by
  obtain ⟨m', h1, -, h3, h4, h5, h6⟩ := setValue_spec hm ⟨hr0, hr, hc0, hc⟩ v
  refine ⟨m', h1, h5, h3, h4, ?_⟩
  intro r' c' a1 a2 a3 a4 hne
  exact ⟨h6 r' c' hne, m.cell r' c', getValue_eq_cell hm ⟨a1, a2, a3, a4⟩⟩

/-- C7 on `[[1,2],[3,4]]`: after `setValue(0, 1, 9)` the matrix is `[[1,9],[3,4]]`. -/
theorem set_get_spec_witness :
    (ofRows 2 2 [[1, 2], [3, 4]]).Inv ∧
    ∃ m', (ofRows 2 2 [[1, 2], [3, 4]]).setValue 0 1 9 = (.ok (), m') ∧
      m'.getValue 0 1 = .ok 9 ∧ m'.rows_ = 2 ∧ m'.cols_ = 2 ∧
      m'.getValue 1 1 = .ok 4 := by
  refine ⟨by decide, ?_⟩
  obtain ⟨m', h1, h2, h3, h4, h5⟩ := set_get_spec (ofRows 2 2 [[1, 2], [3, 4]]) (by decide)
    0 1 9 (by decide) (by decide) (by decide) (by decide)
  refine ⟨m', h1, h2, h3, h4, ?_⟩
  rw [(h5 1 1 (by decide) (by decide) (by decide) (by decide) (by decide)).1]
  decide

/-! ## C8: the constructor -/

/-- C8: `Matrix(R, C)` with `R > 0` and `C > 0` has `rows == R`, `cols == C` and the value
`0` in every cell inside the shape; with `R <= 0` or `C <= 0` it has shape `(0, 0)`. -/
theorem new_spec (R C : Int) :
    (0 < R → 0 < C →
      (Matrix.new R C).getRows = R ∧ (Matrix.new R C).getCols = C ∧
      ∀ r c : Int, 0 ≤ r → r < R → 0 ≤ c → c < C → (Matrix.new R C).getValue r c = .ok 0) ∧
    (R ≤ 0 ∨ C ≤ 0 → (Matrix.new R C).getRows = 0 ∧ (Matrix.new R C).getCols = 0) := by
  constructor
  · intro hR hC
    have e := new_of_pos R C hR hC
    refine ⟨by rw [e]; rfl, by rw [e]; rfl, ?_⟩
    intro r c hr0 hr hc0 hc
    have hb : (Matrix.new R C).InBounds r c := by
      rw [e]; exact ⟨hr0, hr, hc0, hc⟩
    rw [getValue_of_inBounds (inv_new R C) hb, e]
    simp [buffer, Buffer.read_zeros]
  · intro h
    rw [new_of_nonpos R C h]
    exact ⟨rfl, rfl⟩

/-- C8 at `Matrix(2, 3)`, `Matrix(0, 3)`, `Matrix(2, -1)` and `Matrix(-2, -5)`. -/
theorem new_spec_witness :
    ((Matrix.new 2 3).getRows = 2 ∧ (Matrix.new 2 3).getCols = 3 ∧
      (Matrix.new 2 3).getValue 1 2 = .ok 0) ∧
    ((Matrix.new 0 3).getRows = 0 ∧ (Matrix.new 0 3).getCols = 0) ∧
    ((Matrix.new 2 (-1)).getRows = 0 ∧ (Matrix.new 2 (-1)).getCols = 0) ∧
    ((Matrix.new (-2) (-5)).getRows = 0 ∧ (Matrix.new (-2) (-5)).getCols = 0) := by
  have h := (new_spec 2 3).1 (by decide) (by decide)
  exact ⟨⟨h.1, h.2.1, h.2.2 1 2 (by decide) (by decide) (by decide) (by decide)⟩,
    (new_spec 0 3).2 (by decide), (new_spec 2 (-1)).2 (by decide),
    (new_spec (-2) (-5)).2 (by decide)⟩

end Matrix

namespace MatrixObj

/-! ## C9: the copy constructor -/

/-- C9: the copy constructor, called on a matrix `m`, builds a matrix `c` of the shape of
`m` (of shape `(0, 0)` for an `m` of shape `(0, 0)`) with the value of `m` in every cell,
and leaves `m` as it was; a later `setValue(r, c, v)` on `m`, inside the shape, leaves
every cell of the copy at its value, and a `setValue` on the copy leaves every cell of `m`
at its value. After `A = [[1,2],[3,4]]`, `C = copy(A)` and `setValue(0, 0, 99)` on `A`,
`A` is `[[99,2],[3,4]]` and `C` is `[[1,2],[3,4]]`. -/
theorem copy_spec (s : Store) (m : MatrixObj) (hm : m.Valid s) :
    (∃ s1 c, copy s m = (s1, c) ∧
      c.rows_ = m.rows_ ∧ c.cols_ = m.cols_ ∧
      (∀ r k : Int, getValue s1 c r k = getValue s m r k) ∧
      (∀ r k : Int, getValue s1 m r k = getValue s m r k) ∧
      ∀ r k v : Int, 0 ≤ r → r < m.rows_ → 0 ≤ k → k < m.cols_ →
        (∃ s2, setValue s1 m r k v = (.ok (), s2) ∧ getValue s2 m r k = .ok v ∧
          ∀ r' k' : Int, getValue s2 c r' k' = getValue s1 c r' k') ∧
        (∃ s2, setValue s1 c r k v = (.ok (), s2) ∧ getValue s2 c r k = .ok v ∧
          ∀ r' k' : Int, getValue s2 m r' k' = getValue s1 m r' k')) ∧
    ∃ s1 c s2,
      copy { buffers := [[[1, 2], [3, 4]]] } { rows_ := 2, cols_ := 2, data_ := some 0 } =
        (s1, c) ∧
      setValue s1 { rows_ := 2, cols_ := 2, data_ := some 0 } 0 0 99 = (.ok (), s2) ∧
      getValue s2 { rows_ := 2, cols_ := 2, data_ := some 0 } 0 0 = .ok 99 ∧
      getValue s2 { rows_ := 2, cols_ := 2, data_ := some 0 } 0 1 = .ok 2 ∧
      getValue s2 { rows_ := 2, cols_ := 2, data_ := some 0 } 1 0 = .ok 3 ∧
      getValue s2 { rows_ := 2, cols_ := 2, data_ := some 0 } 1 1 = .ok 4 ∧
      c.rows_ = 2 ∧ c.cols_ = 2 ∧
      getValue s2 c 0 0 = .ok 1 ∧ getValue s2 c 0 1 = .ok 2 ∧
      getValue s2 c 1 0 = .ok 3 ∧ getValue s2 c 1 1 = .ok 4 := by
  refine ⟨?_, _, _, _, rfl, rfl, by decide⟩
  cases hd : m.data_ with
  | none =>
    have hv := hm
    unfold Valid at hv
    rw [hd] at hv
    refine ⟨_, _, copy_of_none s m hm hd, hv.1.symm, hv.2.symm, ?_, fun _ _ => rfl, ?_⟩
    · intro r k
      rw [getValue_of_none s _ rfl, getValue_of_none s m hd]
    · intro r k v h1 h2
      omega
  | some q =>
    have hv := hm
    unfold Valid at hv
    rw [hd] at hv
    obtain ⟨hq, hR, hC, hrect⟩ := hv
    have hqne : q ≠ s.buffers.length := by omega
    have rd_old : ∀ r k : Int,
        Store.read { buffers := s.buffers ++ [s.buffers.getD q []] } q r k = s.read q r k := by
      intro r k
      simp [Store.read, List.getD_eq_getElem?_getD, List.getElem?_append_left, hq]
    have rd_new : ∀ r k : Int,
        Store.read { buffers := s.buffers ++ [s.buffers.getD q []] } s.buffers.length r k =
          s.read q r k := by
      intro r k
      simp [Store.read, List.getD_eq_getElem?_getD]
    have same_old : ∀ r k : Int,
        getValue { buffers := s.buffers ++ [s.buffers.getD q []] } m r k = getValue s m r k := by
      intro r k
      by_cases hb : r < 0 ∨ r ≥ m.rows_ ∨ k < 0 ∨ k ≥ m.cols_
      · rw [getValue_of_outside _ m r k hb, getValue_of_outside _ m r k hb]
      · rw [getValue_of_some _ m q hd r k (by omega) (by omega) (by omega) (by omega),
          getValue_of_some _ m q hd r k (by omega) (by omega) (by omega) (by omega), rd_old]
    have hcd : ({ rows_ := m.rows_, cols_ := m.cols_, data_ := some s.buffers.length } :
        MatrixObj).data_ = some s.buffers.length := rfl
    refine ⟨_, _, copy_of_some s m hm q hd, rfl, rfl, ?_, same_old, ?_⟩
    · intro r k
      by_cases hb : r < 0 ∨ r ≥ m.rows_ ∨ k < 0 ∨ k ≥ m.cols_
      · rw [getValue_of_outside _ (⟨m.rows_, m.cols_, some s.buffers.length⟩ : MatrixObj) r k hb,
          getValue_of_outside _ m r k hb]
      · rw [getValue_of_some _ _ s.buffers.length hcd r k (by omega)
            (by show r < m.rows_; omega) (by omega) (by show k < m.cols_; omega),
          getValue_of_some _ m q hd r k (by omega) (by omega) (by omega) (by omega), rd_new]
    · intro r k v hr0 hr hk0 hk
      constructor
      · exact ⟨_, setValue_of_some _ m q hd r k v hr0 hr hk0 hk,
          getValue_write_same _ m q hd (by simp; omega)
            (by simpa [List.getD_eq_getElem?_getD, List.getElem?_append_left, hq] using hrect)
            r k v hr0 hr hk0 hk,
          fun r' k' => getValue_write_other _ _ q s.buffers.length hcd (Ne.symm hqne) _ _ _ _ _⟩
      · exact ⟨_, setValue_of_some _ _ s.buffers.length hcd r k v hr0 hr hk0 hk,
          getValue_write_same _ _ s.buffers.length hcd (by simp)
            (by simpa [List.getD_eq_getElem?_getD] using hrect)
            r k v hr0 hr hk0 hk,
          fun r' k' => getValue_write_other _ m s.buffers.length q hd hqne _ _ _ _ _⟩

/-- C9 at `A = [[1,2],[3,4]]`: the copy has the shape of `A`, and after `setValue(0, 0, 99)`
on `A` the cell `(0, 0)` of `A` is `99` and the copy returns what it returned before. -/
theorem copy_spec_witness :
    Valid { buffers := [[[1, 2], [3, 4]]] } { rows_ := 2, cols_ := 2, data_ := some 0 } ∧
    ∃ s1 c,
      copy { buffers := [[[1, 2], [3, 4]]] } { rows_ := 2, cols_ := 2, data_ := some 0 } =
        (s1, c) ∧
      c.rows_ = 2 ∧ c.cols_ = 2 ∧
      ∃ s2, setValue s1 { rows_ := 2, cols_ := 2, data_ := some 0 } 0 0 99 = (.ok (), s2) ∧
        getValue s2 { rows_ := 2, cols_ := 2, data_ := some 0 } 0 0 = .ok 99 ∧
        ∀ r' k' : Int, getValue s2 c r' k' = getValue s1 c r' k' := by
  refine ⟨by decide, ?_⟩
  obtain ⟨s1, c, h1, h2, h3, -, -, h6⟩ := (copy_spec { buffers := [[[1, 2], [3, 4]]] }
    { rows_ := 2, cols_ := 2, data_ := some 0 } (by decide)).1
  exact ⟨s1, c, h1, h2, h3, (h6 0 0 99 (by decide) (by decide) (by decide) (by decide)).1⟩

end MatrixObj

namespace Matrix

/-! ## C10: the transpose of a product -/

/-- C10: for matrices `a` and `b` with `a.cols == b.rows`, `transpose(multiply(a, b))` and
`multiply(transpose(b), transpose(a))` are both computed, the second without a shape
mismatch either (`transpose(b).cols == transpose(a).rows`), and they are one matrix `t`:
one shape, `(b.cols, a.rows)`, and one value in every cell, the elements being 32-bit
two's-complement integers. -/
theorem transpose_multiply_spec (a b : Matrix) (ha : a.Inv) (hb : b.Inv)
    (hcr : a.cols_ = b.rows_) :
    ∃ ab bT aT t, a.multiply b = .ok ab ∧ ab.transpose = .ok t ∧
      b.transpose = .ok bT ∧ a.transpose = .ok aT ∧ bT.cols_ = aT.rows_ ∧
      bT.multiply aT = .ok t ∧
      t.rows_ = b.cols_ ∧ t.cols_ = a.rows_ ∧
      ∀ r c : Int, 0 ≤ r → r < b.cols_ → 0 ≤ c → c < a.rows_ →
        ∃ v, t.getValue r c = .ok v := by
  obtain ⟨ab, m1, m2, m3, m4, m5⟩ := multiply_ok a b ha hb hcr
  obtain ⟨abT, t1, t2, t3, t4, t5⟩ := transpose_ok ab m2
  obtain ⟨bT, u1, u2, u3, u4, u5⟩ := transpose_ok b hb
  obtain ⟨aT, v1, v2, v3, v4, v5⟩ := transpose_ok a ha
  have hcr' : bT.cols_ = aT.rows_ := by rw [u4, v3, hcr]
  obtain ⟨rhs, w1, w2, w3, w4, w5⟩ := multiply_ok bT aT u2 v2 hcr'
  have e : rhs = abT := by
    apply ext_of_getValue w2 t2 (by rw [w3, u3, t3, m4]) (by rw [w4, v4, t4, m3])
    intro k r hkr
    have hk0 : 0 ≤ k := hkr.1
    have hk : k < b.cols_ := by have := hkr.2.1; rw [w3, u3] at this; exact this
    have hr0 : 0 ≤ r := hkr.2.2.1
    have hr : r < a.rows_ := by have := hkr.2.2.2; rw [w4, v4] at this; exact this
    have hab : ab.InBounds r k := ⟨hr0, by rw [m3]; exact hr, hk0, by rw [m4]; exact hk⟩
    rw [w5 k r hkr, t5 r k hab, cell_of_getValue (m5 r k hab), u4, hcr]
    congr 2
    apply Finset.sum_congr rfl
    intro j hj
    have hj' : (j : Int) < b.rows_ := by
      have := Finset.mem_range.mp hj
      have := hb.nonneg.1
      omega
    have e1 : bT.cell k j = b.cell j k :=
      cell_of_getValue (u5 j k ⟨by omega, hj', hk0, hk⟩)
    have e2 : aT.cell j r = a.cell r j :=
      cell_of_getValue (v5 r j ⟨hr0, hr, by omega, by rw [hcr]; exact hj'⟩)
    rw [e1, e2, mul_comm]
  refine ⟨ab, bT, aT, abT, m1, t1, u1, v1, hcr', by rw [← e]; exact w1, by rw [t3, m4],
    by rw [t4, m3], ?_⟩
  intro r c hr0 hr hc0 hc
  exact ⟨abT.cell r c, getValue_eq_cell t2 ⟨hr0, by rw [t3, m4]; exact hr, hc0,
    by rw [t4, m3]; exact hc⟩⟩

/-- C10 at `a = [[1,2,3],[4,5,6]]` and `b = [[7,8],[9,10],[11,12]]`: both sides are
`[[58,139],[64,154]]`. -/
theorem transpose_multiply_spec_witness :
    (ofRows 2 3 [[1, 2, 3], [4, 5, 6]]).Inv ∧ (ofRows 3 2 [[7, 8], [9, 10], [11, 12]]).Inv ∧
    ∃ ab bT aT,
      (ofRows 2 3 [[1, 2, 3], [4, 5, 6]]).multiply (ofRows 3 2 [[7, 8], [9, 10], [11, 12]]) =
        .ok ab ∧
      ab.transpose = .ok (ofRows 2 2 [[58, 139], [64, 154]]) ∧
      (ofRows 3 2 [[7, 8], [9, 10], [11, 12]]).transpose = .ok bT ∧
      (ofRows 2 3 [[1, 2, 3], [4, 5, 6]]).transpose = .ok aT ∧
      bT.multiply aT = .ok (ofRows 2 2 [[58, 139], [64, 154]]) := by
  refine ⟨by decide, by decide, ?_⟩
  obtain ⟨ab, bT, aT, t, h1, h2, h3, h4, -, h6, -⟩ :=
    transpose_multiply_spec (ofRows 2 3 [[1, 2, 3], [4, 5, 6]])
      (ofRows 3 2 [[7, 8], [9, 10], [11, 12]]) (by decide) (by decide) rfl
  have e1 : ab = ofRows 2 2 [[58, 64], [139, 154]] := by
    have e : Except.ok ab = (Except.ok (ofRows 2 2 [[58, 64], [139, 154]]) :
        Except MatrixError Matrix) := by rw [← h1]; decide
    exact Except.ok.inj e
  have e2 : t = ofRows 2 2 [[58, 139], [64, 154]] := by
    have e : Except.ok t = (Except.ok (ofRows 2 2 [[58, 139], [64, 154]]) :
        Except MatrixError Matrix) := by rw [← h2, e1]; decide
    exact Except.ok.inj e
  exact ⟨ab, bT, aT, h1, by rw [h2, e2], h3, h4, by rw [h6, e2]⟩

end Matrix

namespace Matrix

/-! ## C11, C12: transpose twice, subtract from itself -/

/-- Every cell of a fresh matrix is `0`. -/
theorem getValue_new {R C r c : Int} (hb : (Matrix.new R C).InBounds r c) :
    (Matrix.new R C).getValue r c = .ok 0 := by
  rw [getValue_of_inBounds (inv_new R C) hb]
  by_cases h : R ≤ 0 ∨ C ≤ 0
  · rw [new_of_nonpos R C h] at hb
    have hb' : 0 ≤ r ∧ r < 0 ∧ 0 ≤ c ∧ c < 0 := hb
    omega
  · rw [new_of_pos R C (by omega) (by omega)]
    simp [buffer, Buffer.read_zeros]

/-- C11: for every matrix `m`, `transpose(transpose(m))` is computed, has the shape of `m`
and the value of `m` in every cell: it is `m`. -/
theorem transpose_transpose_spec (m : Matrix) (hm : m.Inv) :
    ∃ t tt, m.transpose = .ok t ∧ t.transpose = .ok tt ∧
      tt.rows_ = m.rows_ ∧ tt.cols_ = m.cols_ ∧
      (∀ r c : Int, 0 ≤ r → r < m.rows_ → 0 ≤ c → c < m.cols_ →
        ∃ v, m.getValue r c = .ok v ∧ tt.getValue r c = .ok v) ∧
      tt = m := by
  obtain ⟨t, t1, t2, t3, t4, t5⟩ := transpose_ok m hm
  obtain ⟨tt, u1, u2, u3, u4, u5⟩ := transpose_ok t t2
  have cells : ∀ r c : Int, m.InBounds r c → tt.getValue r c = .ok (m.cell r c) := by
    intro r c hb
    have hbt : t.InBounds c r := ⟨hb.2.2.1, by rw [t3]; exact hb.2.2.2, hb.1,
      by rw [t4]; exact hb.2.1⟩
    rw [u5 c r hbt, cell_of_getValue (t5 r c hb)]
  refine ⟨t, tt, t1, u1, by rw [u3, t4], by rw [u4, t3], ?_, ?_⟩
  · intro r c hr0 hr hc0 hc
    exact ⟨m.cell r c, getValue_eq_cell hm ⟨hr0, hr, hc0, hc⟩, cells r c ⟨hr0, hr, hc0, hc⟩⟩
  · apply ext_of_getValue u2 hm (by rw [u3, t4]) (by rw [u4, t3])
    intro r c hb
    have hbm : m.InBounds r c := by
      unfold InBounds at hb ⊢
      rw [u3, t4, u4, t3] at hb
      exact hb
    rw [cells r c hbm, getValue_eq_cell hm hbm]

/-- C11 at `m = [[1,2,3],[4,5,6]]`: its transpose is `[[1,4],[2,5],[3,6]]`, whose
transpose is `m`. -/
theorem transpose_transpose_spec_witness :
    (ofRows 2 3 [[1, 2, 3], [4, 5, 6]]).Inv ∧
    ∃ t, (ofRows 2 3 [[1, 2, 3], [4, 5, 6]]).transpose = .ok t ∧
      t.transpose = .ok (ofRows 2 3 [[1, 2, 3], [4, 5, 6]]) := by
  refine ⟨by decide, ?_⟩
  obtain ⟨t, tt, h1, h2, -, -, -, h6⟩ :=
    transpose_transpose_spec (ofRows 2 3 [[1, 2, 3], [4, 5, 6]]) (by decide)
  exact ⟨t, h1, by rw [h2, h6]⟩

/-- C12: for every matrix `a`, `subtract(a, a)` is computed, has the shape of `a` and the
value `0` in every cell: it is the matrix `Matrix(a.rows, a.cols)` builds. -/
theorem subtract_self_spec (a : Matrix) (ha : a.Inv) :
    ∃ m, a.subtract a = .ok m ∧ m.rows_ = a.rows_ ∧ m.cols_ = a.cols_ ∧
      (∀ r c : Int, 0 ≤ r → r < a.rows_ → 0 ≤ c → c < a.cols_ → m.getValue r c = .ok 0) ∧
      m = Matrix.new a.rows_ a.cols_ := by
  obtain ⟨m, h1, h2, h3, h4, h5⟩ := subtract_ok a a ha ha rfl rfl
  have cells : ∀ r c : Int, m.InBounds r c → m.getValue r c = .ok 0 := by
    intro r c hb
    rw [h5 r c hb, sub_self]
    rfl
  have hrows := rows_new a.rows_ a.cols_ ha.nonneg.1 ha.nonneg.2 ha.pos_iff
  have hcols := cols_new a.rows_ a.cols_ ha.nonneg.1 ha.nonneg.2 ha.pos_iff
  refine ⟨m, h1, h3, h4, ?_, ?_⟩
  · intro r c hr0 hr hc0 hc
    exact cells r c ⟨hr0, by rw [h3]; exact hr, hc0, by rw [h4]; exact hc⟩
  · apply ext_of_getValue h2 (inv_new _ _) (by rw [h3, hrows]) (by rw [h4, hcols])
    intro r c hb
    have hbn : (Matrix.new a.rows_ a.cols_).InBounds r c := by
      unfold InBounds at hb ⊢
      rw [hrows, hcols, ← h3, ← h4]
      exact hb
    rw [cells r c hb, getValue_new hbn]

/-- C12 at `a = [[5,7],[1,0]]` and at the `(0, 0)` matrix. -/
theorem subtract_self_spec_witness :
    (ofRows 2 2 [[5, 7], [1, 0]]).Inv ∧
    (ofRows 2 2 [[5, 7], [1, 0]]).subtract (ofRows 2 2 [[5, 7], [1, 0]]) =
      .ok (ofRows 2 2 [[0, 0], [0, 0]]) ∧
    (Matrix.new 0 0).subtract (Matrix.new 0 0) = .ok (Matrix.new 0 0) := by
  refine ⟨by decide, ?_, ?_⟩
  · obtain ⟨m, h1, -, -, -, h5⟩ := subtract_self_spec (ofRows 2 2 [[5, 7], [1, 0]]) (by decide)
    rw [h1, h5]
    decide
  · obtain ⟨m, h1, -, -, -, h5⟩ := subtract_self_spec (Matrix.new 0 0) (by decide)
    rw [h1, h5]
    decide

end Matrix

namespace Matrix

/-! ## The invariants of the data model -/

theorem Inv.dataModelInv {m : Matrix} (h : m.Inv) : m.DataModelInv := by
  refine ⟨h.nonneg.1, h.nonneg.2, ?_, ?_⟩
  · intro hz
    have hd : m.data_ = none := by
      cases hd : m.data_ with
      | none => rfl
      | some d =>
        have h' := h
        unfold Inv at h'
        rw [hd] at h'
        simp only at h'
        omega
    refine ⟨hd, fun r c => ?_⟩
    apply getValue_of_not_inBounds
    have := h.pos_iff
    unfold InBounds
    omega
  · intro hnz
    have hn := h.nonneg
    have hp : 0 < m.rows_ ∧ 0 < m.cols_ := by omega
    cases hd : m.data_ with
    | none =>
      have h' := h
      unfold Inv at h'
      rw [hd] at h'
      simp only at h'
      omega
    | some d =>
      have h' := h
      unfold Inv at h'
      rw [hd] at h'
      obtain ⟨-, -, hl, hrow⟩ := h'
      refine ⟨d, rfl, hl, hrow, ?_⟩
      intro r c hr0 hr hc0 hc
      have hrl : r.toNat < d.length := by omega
      have hcl : c.toNat < (d[r.toNat]).length := by
        rw [hrow _ (List.getElem_mem hrl)]; omega
      refine ⟨(d[r.toNat])[c.toNat], ?_, ?_⟩
      · simp [List.getElem?_eq_getElem, hrl, hcl]
      · rw [getValue_of_inBounds h ⟨hr0, hr, hc0, hc⟩]
        simp [buffer, hd, Buffer.read, List.getD_eq_getElem?_getD, List.getElem?_eq_getElem,
          hrl, hcl]

/-- A matrix that keeps the invariants of the data model and has no zero dimension keeps
the class invariant. -/
theorem DataModelInv.inv_of_pos {m : Matrix} (h : m.DataModelInv) (hr : 0 < m.rows_)
    (hc : 0 < m.cols_) : m.Inv := by
  obtain ⟨d, hd, hl, hrow, -⟩ := h.2.2.2 (by omega)
  unfold Inv
  rw [hd]
  exact ⟨hr, hc, hl, hrow⟩

theorem DataModelInv.data_of_zero {m : Matrix} (h : m.DataModelInv)
    (hz : m.rows_ = 0 ∨ m.cols_ = 0) : m.data_ = none :=
  (h.2.2.1 hz).1

end Matrix

namespace Matrix

theorem forRangeM_of_nonpos {ε σ : Type} (n : Int) (hn : n ≤ 0) (init : σ)
    (body : Int → σ → Except ε σ) : forRangeM n init body = .ok init := by
  have : n.toNat = 0 := by omega
  simp [forRangeM, this]
  rfl

/-- The two nested loops of an operation whose ranges hold no `(r, c)` return the local
matrix they started from, whatever the body. -/
theorem loops_of_empty (R C : Int) (hz : R ≤ 0 ∨ C ≤ 0) (res0 : Matrix) (h0 : res0.Inv)
    (body : Int → Int → Matrix → Except MatrixError Matrix) :
    ∃ res, forRangeM R res0 (fun r result => forRangeM C result (fun c result =>
        body r c result)) = .ok res ∧ res.Inv := by
  have key := forRangeM_inv R
    (fun r result => forRangeM C result (fun c result => body r c result))
    (fun _ res => res.Inv) res0 h0 ?_
  · obtain ⟨res, h1, h2⟩ := key
    exact ⟨res, h1, h2⟩
  · intro i s hi hs
    have hC : C ≤ 0 := by omega
    exact ⟨s, forRangeM_of_nonpos C hC s _, hs⟩

/-- The elementwise loops of `add` and `subtract` return, on operands of one shape that
keep the invariants of the data model. -/
theorem zip_total (op : Int → Int → Int) (a b : Matrix) (ha : a.DataModelInv)
    (hb : b.DataModelInv) (hr : a.rows_ = b.rows_) (hc : a.cols_ = b.cols_) :
    ∃ m, forRangeM a.getRows (Matrix.new a.rows_ a.cols_) (fun r result =>
        forRangeM a.getCols result fun c result => do
          let elementA ← a.getValue r c
          let elementB ← b.getValue r c
          result.setLocal r c (op elementA elementB)) = .ok m ∧
      m.Inv := by
  by_cases hp : 0 < a.rows_ ∧ 0 < a.cols_
  · obtain ⟨m, h1, h2, -⟩ := zip_loops op a b (ha.inv_of_pos hp.1 hp.2)
      (hb.inv_of_pos (by rw [← hr]; exact hp.1) (by rw [← hc]; exact hp.2)) hr hc
    exact ⟨m, h1, h2⟩
  · exact loops_of_empty a.getRows a.getCols
      (by simp only [getRows, getCols]; omega) _ (inv_new _ _) _

theorem add_total (a b : Matrix) (ha : a.DataModelInv) (hb : b.DataModelInv) :
    ∃ m, a.add b = .ok m ∧ m.Inv := by
  by_cases hne : a.rows_ ≠ b.getRows ∨ a.cols_ ≠ b.getCols
  · exact ⟨Matrix.new 0 0, by rw [add, if_pos hne], inv_new 0 0⟩
  · have hr : a.rows_ = b.rows_ := by simp only [getRows, getCols] at hne; omega
    have hc : a.cols_ = b.cols_ := by simp only [getRows, getCols] at hne; omega
    obtain ⟨m, h1, h2⟩ := zip_total (fun x y => wrap32 (x + y)) a b ha hb hr hc
    exact ⟨m, by rw [add, if_neg hne]; exact h1, h2⟩

theorem subtract_total (a b : Matrix) (ha : a.DataModelInv) (hb : b.DataModelInv) :
    ∃ m, a.subtract b = .ok m ∧ m.Inv := by
  by_cases hne : a.getRows ≠ b.getRows ∨ a.getCols ≠ b.getCols
  · exact ⟨Matrix.new 0 0, by rw [subtract, if_pos hne], inv_new 0 0⟩
  · have hr : a.rows_ = b.rows_ := by simp only [getRows, getCols] at hne; omega
    have hc : a.cols_ = b.cols_ := by simp only [getRows, getCols] at hne; omega
    obtain ⟨m, h1, h2⟩ := zip_total (fun x y => wrap32 (x - y)) a b ha hb hr hc
    exact ⟨m, by rw [subtract, if_neg hne]; exact h1, h2⟩

theorem multiply_total (a b : Matrix) (ha : a.DataModelInv) (hb : b.DataModelInv) :
    ∃ m, a.multiply b = .ok m ∧ m.Inv := by
  by_cases hne : a.getCols ≠ b.getRows
  · exact ⟨Matrix.new 0 0, by rw [multiply, if_pos hne], inv_new 0 0⟩
  · have hcr : a.cols_ = b.rows_ := by simp only [getRows, getCols] at hne; omega
    rw [multiply, if_neg hne]
    by_cases hp : 0 < a.rows_ ∧ 0 < b.cols_
    · by_cases hk : 0 < a.cols_
      · obtain ⟨m, h1, h2, -⟩ := multiply_ok a b (ha.inv_of_pos hp.1 hk)
          (hb.inv_of_pos (by rw [← hcr]; exact hk) hp.2) hcr
        rw [multiply, if_neg hne] at h1
        exact ⟨m, h1, h2⟩
      · have hk0 : a.getCols ≤ 0 := by simp only [getCols]; omega
        have e := new_of_pos a.rows_ b.cols_ hp.1 hp.2
        obtain ⟨m, h1, h2, -⟩ := fill_spec a.getRows b.getCols
          (Matrix.new a.rows_ b.cols_) (inv_new _ _)
          (fun r cB result => do
            let suma ← forRangeM a.getCols (0 : Int) fun k suma => do
              let x ← a.getValue r k
              let y ← b.getValue k cB
              pure (wrap32 (suma + wrap32 (x * y)))
            result.setLocal r cB suma)
          (fun r c => (r, c)) (fun _ _ => 0)
          (fun r c h1 h2 h3 h4 => by rw [e]; exact ⟨h1, h2, h3, h4⟩)
          (fun r c r' c' h => by simpa using h)
          (fun r c res h1 h2 h3 h4 => by
            simp only [forRangeM_of_nonpos a.getCols hk0]
            rfl)
        exact ⟨m, h1, h2⟩
    · exact loops_of_empty a.getRows b.getCols
        (by have := ha.1; have := hb.2.1; simp only [getRows, getCols]; omega) _
        (inv_new _ _) _

theorem transpose_total (a : Matrix) (ha : a.DataModelInv) :
    ∃ m, a.transpose = .ok m ∧ m.Inv := by
  by_cases hp : 0 < a.rows_ ∧ 0 < a.cols_
  · obtain ⟨m, h1, h2, -⟩ := transpose_ok a (ha.inv_of_pos hp.1 hp.2)
    exact ⟨m, h1, h2⟩
  · exact loops_of_empty a.getRows a.getCols
      (by simp only [getRows, getCols]; omega) _ (inv_new _ _) _

end Matrix

namespace Matrix

/-! ## C13: the operations do not throw -/

/-- C13: on matrices `a` and `b` that keep the invariants of the data model, `add`,
`subtract`, `multiply` and `transpose` each return a matrix and do not throw
`std::out_of_range`, whether the shapes match or not (a `getValue` or `setValue` of their
loops that threw would leave the operation). Where the loops run, every `getValue` on an
operand returns and every cell written is inside the shape of the fresh result. -/
theorem no_throw_spec (a b : Matrix) (ha : a.DataModelInv) (hb : b.DataModelInv) :
    (∃ m, a.add b = .ok m) ∧ (∃ m, a.subtract b = .ok m) ∧
    (∃ m, a.multiply b = .ok m) ∧ (∃ m, a.transpose = .ok m) ∧
    (a.rows_ = b.rows_ → a.cols_ = b.cols_ →
      ∀ r c : Int, 0 ≤ r → r < a.rows_ → 0 ≤ c → c < a.cols_ →
        (∃ x, a.getValue r c = .ok x) ∧ (∃ y, b.getValue r c = .ok y) ∧
        (Matrix.new a.rows_ a.cols_).InBounds r c) ∧
    (a.cols_ = b.rows_ →
      ∀ r cB : Int, 0 ≤ r → r < a.rows_ → 0 ≤ cB → cB < b.cols_ →
        (Matrix.new a.rows_ b.cols_).InBounds r cB ∧
        ∀ k : Int, 0 ≤ k → k < a.cols_ →
          (∃ x, a.getValue r k = .ok x) ∧ (∃ y, b.getValue k cB = .ok y)) ∧
    (∀ r c : Int, 0 ≤ r → r < a.rows_ → 0 ≤ c → c < a.cols_ →
      (∃ v, a.getValue r c = .ok v) ∧ (Matrix.new a.cols_ a.rows_).InBounds c r) := by
  obtain ⟨m1, h1, -⟩ := add_total a b ha hb
  obtain ⟨m2, h2, -⟩ := subtract_total a b ha hb
  obtain ⟨m3, h3, -⟩ := multiply_total a b ha hb
  obtain ⟨m4, h4, -⟩ := transpose_total a ha
  refine ⟨⟨m1, h1⟩, ⟨m2, h2⟩, ⟨m3, h3⟩, ⟨m4, h4⟩, ?_, ?_, ?_⟩
  · intro hr hc r c hr0 hrr hc0 hcc
    have ia : a.Inv := ha.inv_of_pos (by omega) (by omega)
    have ib : b.Inv := hb.inv_of_pos (by omega) (by omega)
    refine ⟨⟨_, getValue_eq_cell ia ⟨hr0, hrr, hc0, hcc⟩⟩,
      ⟨_, getValue_eq_cell ib ⟨hr0, by omega, hc0, by omega⟩⟩, ?_⟩
    rw [new_of_pos a.rows_ a.cols_ (by omega) (by omega)]
    exact ⟨hr0, hrr, hc0, hcc⟩
  · intro hcr r cB hr0 hrr hc0 hcc
    constructor
    · rw [new_of_pos a.rows_ b.cols_ (by omega) (by omega)]
      exact ⟨hr0, hrr, hc0, hcc⟩
    · intro k hk0 hk
      have ia : a.Inv := ha.inv_of_pos (by omega) (by omega)
      have ib : b.Inv := hb.inv_of_pos (by omega) (by omega)
      exact ⟨⟨_, getValue_eq_cell ia ⟨hr0, hrr, hk0, hk⟩⟩,
        ⟨_, getValue_eq_cell ib ⟨hk0, by omega, hc0, hcc⟩⟩⟩
  · intro r c hr0 hrr hc0 hcc
    have ia : a.Inv := ha.inv_of_pos (by omega) (by omega)
    refine ⟨⟨_, getValue_eq_cell ia ⟨hr0, hrr, hc0, hcc⟩⟩, ?_⟩
    rw [new_of_pos a.cols_ a.rows_ (by omega) (by omega)]
    exact ⟨hc0, hcc, hr0, hrr⟩

/-- C13 at `a = [[1,2,3],[4,5,6]]` and `b = [[7,8],[9,10],[11,12]]`, whose shapes differ
for `add` and `subtract` and fit for `multiply`. -/
theorem no_throw_spec_witness :
    (ofRows 2 3 [[1, 2, 3], [4, 5, 6]]).DataModelInv ∧
    (ofRows 3 2 [[7, 8], [9, 10], [11, 12]]).DataModelInv ∧
    (∃ m, (ofRows 2 3 [[1, 2, 3], [4, 5, 6]]).add (ofRows 3 2 [[7, 8], [9, 10], [11, 12]]) =
      .ok m) ∧
    (∃ m, (ofRows 2 3 [[1, 2, 3], [4, 5, 6]]).subtract
      (ofRows 3 2 [[7, 8], [9, 10], [11, 12]]) = .ok m) ∧
    (∃ m, (ofRows 2 3 [[1, 2, 3], [4, 5, 6]]).multiply
      (ofRows 3 2 [[7, 8], [9, 10], [11, 12]]) = .ok m) ∧
    (∃ m, (ofRows 2 3 [[1, 2, 3], [4, 5, 6]]).transpose = .ok m) := by
  have ia : (ofRows 2 3 [[1, 2, 3], [4, 5, 6]]).DataModelInv :=
    Inv.dataModelInv (by decide)
  have ib : (ofRows 3 2 [[7, 8], [9, 10], [11, 12]]).DataModelInv :=
    Inv.dataModelInv (by decide)
  have h := no_throw_spec _ _ ia ib
  exact ⟨ia, ib, h.1, h.2.1, h.2.2.1, h.2.2.2.1⟩

end Matrix

namespace Matrix

/-! ## C14: the invariants of the data model are kept -/

theorem copy_dataModelInv (m : Matrix) (hm : m.DataModelInv) : m.copy.DataModelInv := by
  by_cases hp : 0 < m.rows_ ∧ 0 < m.cols_
  · rw [copy_eq_self m (hm.inv_of_pos hp.1 hp.2)]
    exact hm
  · have hz : m.rows_ ≤ 0 ∨ m.cols_ ≤ 0 := by omega
    have e : m.copy = Matrix.new 0 0 := by
      simp [copy, allocateMatrix, hz, Matrix.new]
    rw [e]
    exact (inv_new 0 0).dataModelInv

theorem setValue_dataModelInv (m : Matrix) (hm : m.DataModelInv) (r c v : Int) :
    (m.setValue r c v).2.DataModelInv := by
  by_cases hb : m.InBounds r c
  · have hi : m.Inv := hm.inv_of_pos (by unfold InBounds at hb; omega)
      (by unfold InBounds at hb; omega)
    obtain ⟨m', h1, h2, -⟩ := setValue_spec hi hb v
    rw [h1]
    exact h2.dataModelInv
  · rw [setValue_of_not_inBounds m hb v]
    exact hm

/-- C14: the constructor, the copy constructor, a `setValue` that returns or throws,
`add`, `subtract`, `multiply` and `transpose`, on operands that keep the invariants of the
data model, produce a matrix that keeps them: `rows >= 0` and `cols >= 0`; with
`rows == 0` or `cols == 0` there is no buffer and every cell access throws; otherwise the
buffer has `rows` rows of `cols` cells each and every `(r, c)` inside the shape addresses
one cell. -/
theorem invariant_spec (a b : Matrix) (ha : a.DataModelInv) (hb : b.DataModelInv)
    (R C r c v : Int) :
    (Matrix.new R C).DataModelInv ∧
    a.copy.DataModelInv ∧
    (a.setValue r c v).2.DataModelInv ∧
    (∃ m, a.add b = .ok m ∧ m.DataModelInv) ∧
    (∃ m, a.subtract b = .ok m ∧ m.DataModelInv) ∧
    (∃ m, a.multiply b = .ok m ∧ m.DataModelInv) ∧
    (∃ m, a.transpose = .ok m ∧ m.DataModelInv) := by
  obtain ⟨m1, h1, i1⟩ := add_total a b ha hb
  obtain ⟨m2, h2, i2⟩ := subtract_total a b ha hb
  obtain ⟨m3, h3, i3⟩ := multiply_total a b ha hb
  obtain ⟨m4, h4, i4⟩ := transpose_total a ha
  exact ⟨(inv_new R C).dataModelInv, copy_dataModelInv a ha, setValue_dataModelInv a ha r c v,
    ⟨m1, h1, i1.dataModelInv⟩, ⟨m2, h2, i2.dataModelInv⟩, ⟨m3, h3, i3.dataModelInv⟩,
    ⟨m4, h4, i4.dataModelInv⟩⟩

/-- C14 at `a = [[1,2,3],[4,5,6]]`, `b = [[7,8],[9,10],[11,12]]`, `Matrix(2, -1)` and
`setValue(4, 0, 1)`, which throws. -/
theorem invariant_spec_witness :
    (ofRows 2 3 [[1, 2, 3], [4, 5, 6]]).DataModelInv ∧
    (ofRows 3 2 [[7, 8], [9, 10], [11, 12]]).DataModelInv ∧
    (Matrix.new 2 (-1)).DataModelInv ∧
    ((ofRows 2 3 [[1, 2, 3], [4, 5, 6]]).setValue 4 0 1).2.DataModelInv ∧
    (ofRows 2 2 [[58, 64], [139, 154]]).DataModelInv := by
  have ia : (ofRows 2 3 [[1, 2, 3], [4, 5, 6]]).DataModelInv :=
    Inv.dataModelInv (by decide)
  have ib : (ofRows 3 2 [[7, 8], [9, 10], [11, 12]]).DataModelInv :=
    Inv.dataModelInv (by decide)
  have h := invariant_spec _ _ ia ib 2 (-1) 4 0 1
  obtain ⟨m, hm, im⟩ := h.2.2.2.2.2.1
  have e : m = ofRows 2 2 [[58, 64], [139, 154]] := by
    have e' : Except.ok m = (Except.ok (ofRows 2 2 [[58, 64], [139, 154]]) :
        Except MatrixError Matrix) := by rw [← hm]; decide
    exact Except.ok.inj e'
  exact ⟨ia, ib, h.1, h.2.2.1, e ▸ im⟩

end Matrix

namespace Matrix

/-! ## C15: the accumulation of `multiply` -/

theorem wrap32_range (x : Int) : -2147483648 ≤ wrap32 x ∧ wrap32 x < 2147483648 := by
  unfold wrap32; omega

theorem wrap32_sub_emod (x : Int) : (wrap32 x - x) % 4294967296 = 0 := by
  unfold wrap32; omega

/-- The accumulation `suma += f(j)` for `j = 0, 1, ..., n - 1`, from `suma = 0` and in
32-bit arithmetic, ends with the sum of the `f(j)` reduced to 32 bits. -/
theorem accumulate_eq (f : Nat → Int) (n : Nat) :
    (List.range n).foldl (fun suma j => wrap32 (suma + wrap32 (f j))) 0 =
      wrap32 (∑ j ∈ Finset.range n, f j) := by
  induction n with
  | zero => simp [wrap32]
  | succ n ih =>
    rw [List.range_succ, List.foldl_append, ih, Finset.sum_range_succ]
    simp only [List.foldl_cons, List.foldl_nil]
    rw [wrap32_add_left, wrap32_add_right]

/-- C15: for matrices `a` and `b` with `a.cols == b.rows`, the cell `(r, k)` of
`multiply(a, b)` is what the accumulation of `a[r][0]*b[0][k]`, `a[r][1]*b[1][k]`, ...,
left to right and from `0`, gives in signed 32-bit arithmetic with two's-complement wrap.
It is the dot product over the integers reduced modulo `2^32` into `[-2^31, 2^31)`, and
the dot product itself whenever that lies in the range. -/
theorem multiply_accumulation_spec (a b : Matrix) (ha : a.Inv) (hb : b.Inv)
    (hcr : a.cols_ = b.rows_) :
    ∃ m, a.multiply b = .ok m ∧
      ∀ r k : Int, 0 ≤ r → r < a.rows_ → 0 ≤ k → k < b.cols_ →
        ∃ v, m.getValue r k = .ok v ∧
          v = (List.range a.cols_.toNat).foldl
            (fun suma (j : Nat) => wrap32 (suma + wrap32 (a.cell r j * b.cell j k))) 0 ∧
          -2147483648 ≤ v ∧ v < 2147483648 ∧
          (v - ∑ j ∈ Finset.range a.cols_.toNat, a.cell r j * b.cell j k) % 4294967296 = 0 ∧
          (-2147483648 ≤ ∑ j ∈ Finset.range a.cols_.toNat, a.cell r j * b.cell j k →
            ∑ j ∈ Finset.range a.cols_.toNat, a.cell r j * b.cell j k < 2147483648 →
            v = ∑ j ∈ Finset.range a.cols_.toNat, a.cell r j * b.cell j k) := by
  obtain ⟨m, h1, -, h3, h4, h5⟩ := multiply_ok a b ha hb hcr
  refine ⟨m, h1, ?_⟩
  intro r k hr0 hr hk0 hk
  have hm : m.InBounds r k := ⟨hr0, by rw [h3]; exact hr, hk0, by rw [h4]; exact hk⟩
  refine ⟨_, h5 r k hm, ?_, (wrap32_range _).1, (wrap32_range _).2, wrap32_sub_emod _,
    fun lo hi => wrap32_of_range _ lo hi⟩
  exact (accumulate_eq (fun j => a.cell r j * b.cell j k) a.cols_.toNat).symm

/-- C15 at `a = [[65536, 3]]` and `b = [[65536], [5]]`: the dot product `2^32 + 15` is
stored as `15`; and at `a = [[1,2,3],[4,5,6]]`, `b = [[7,8],[9,10],[11,12]]`, where the cell
`(1, 1)` is the dot product `154`. -/
theorem multiply_accumulation_spec_witness :
    (ofRows 1 2 [[65536, 3]]).multiply (ofRows 2 1 [[65536], [5]]) = .ok (ofRows 1 1 [[15]]) ∧
    ∃ m, (ofRows 2 3 [[1, 2, 3], [4, 5, 6]]).multiply
        (ofRows 3 2 [[7, 8], [9, 10], [11, 12]]) = .ok m ∧
      m.getValue 1 1 = .ok 154 := by
  refine ⟨by decide, ?_⟩
  obtain ⟨m, h1, h2⟩ := multiply_accumulation_spec (ofRows 2 3 [[1, 2, 3], [4, 5, 6]])
    (ofRows 3 2 [[7, 8], [9, 10], [11, 12]]) (by decide) (by decide) rfl
  obtain ⟨v, hv, -, -, -, -, hex⟩ := h2 1 1 (by decide) (by decide) (by decide) (by decide)
  refine ⟨m, h1, ?_⟩
  rw [hv, hex (by decide) (by decide)]
  decide

end Matrix

namespace Matrix

/-! ## C16: a product with a zero dimension -/

theorem Inv.eq_new_of_rows_zero {m : Matrix} (h : m.Inv) (hz : m.rows_ = 0) :
    m = Matrix.new 0 0 := by
  apply ext_of_getValue h (inv_new 0 0)
  · rw [hz]; rfl
  · have := h.pos_iff
    have := h.nonneg
    show m.cols_ = 0
    omega
  · intro r c hb
    unfold InBounds at hb
    omega

end Matrix

namespace Matrix

/-! ## The text `print` writes -/

theorem join_range_succ (f : Nat → String) (n : Nat) :
    String.join ((List.range (n + 1)).map f) = String.join ((List.range n).map f) ++ f n := by
  simp [String.join, List.range_succ, List.foldl_append]

/-- The last field of a row, and no other, is followed by a line feed. -/
theorem newline_iff (j : Nat) (C : Int) (hj : (j : Int) < C) :
    Int.tmod ((j : Int) + 1) C = 0 ↔ (j : Int) + 1 = C := by
  rw [Int.tmod_eq_emod (by omega) (by omega)]
  constructor
  · intro h
    by_contra hne
    rw [Int.emod_eq_of_lt (by omega) (by omega)] at h
    omega
  · intro h
    rw [h, Int.emod_self]

/-- The text `print` writes: the header and a line feed, then every row, each the fields
of its cells and a line feed. -/
theorem print_ok (m : Matrix) (hm : m.Inv) :
    m.print = .ok ("Matrix (" ++ toString m.rows_ ++ "x" ++ toString m.cols_ ++ ")" ++ "\n" ++
      String.join ((List.range m.rows_.toNat).map fun (r : Nat) =>
        String.join ((List.range m.cols_.toNat).map fun (c : Nat) => setw 4 (m.cell r c)) ++ "\n")) := by
  have key := forRangeM_inv m.getRows
    (fun r out => forRangeM m.getCols out fun c out => do
      let result ← m.getValue r c
      let new_line := if Int.tmod (c + 1) m.getCols = 0 then "\n" else ""
      pure (out ++ setw 4 result ++ new_line))
    (fun i out => out =
      "Matrix (" ++ toString m.rows_ ++ "x" ++ toString m.cols_ ++ ")" ++ "\n" ++
      String.join ((List.range i).map fun (r : Nat) =>
        String.join ((List.range m.cols_.toNat).map fun (c : Nat) => setw 4 (m.cell r c)) ++ "\n"))
    ("Matrix (" ++ toString m.rows_ ++ "x" ++ toString m.cols_ ++ ")" ++ "\n")
    (by simp [String.join]) ?_
  · obtain ⟨out, h1, h2⟩ := key
    rw [print, h1, h2]
    rfl
  · intro i s hi hs
    have hiR : (i : Int) < m.rows_ := by simp only [getRows] at hi; omega
    have hC : 0 < m.cols_ := hm.pos_iff.mp (by omega)
    have inner := forRangeM_inv m.getCols
      (fun c out => do
        let result ← m.getValue (i : Int) c
        let new_line := if Int.tmod (c + 1) m.getCols = 0 then "\n" else ""
        pure (out ++ setw 4 result ++ new_line))
      (fun j out => out = s ++
        String.join ((List.range j).map fun (c : Nat) => setw 4 (m.cell i c)) ++
        (if (j : Int) = m.cols_ then "\n" else ""))
      s (by
        have : ¬ (0 : Int) = m.cols_ := by omega
        simp [String.join, this]) ?_
    · obtain ⟨out, h1, h2⟩ := inner
      refine ⟨out, h1, ?_⟩
      have e : ((m.getCols.toNat : Nat) : Int) = m.cols_ := by
        simp only [getCols]; omega
      rw [if_pos e] at h2
      show out = _
      rw [h2, hs, join_range_succ]
      simp only [getCols, String.append_assoc]
    · intro j t hj ht
      have hjC : (j : Int) < m.cols_ := by simp only [getCols] at hj; omega
      have hne : ¬ (j : Int) = m.cols_ := by omega
      rw [if_neg hne, String.append_empty] at ht
      refine ⟨_, by
        simp only [getValue_eq_cell hm ⟨by omega, hiR, by omega, hjC⟩]
        rfl, ?_⟩
      show t ++ setw 4 (m.cell i j) ++
          (if Int.tmod ((j : Int) + 1) m.getCols = 0 then "\n" else "") = _
      rw [ht, join_range_succ]
      have e : (Int.tmod ((j : Int) + 1) m.getCols = 0) ↔ (((j + 1 : Nat) : Int) = m.cols_) := by
        rw [newline_iff j m.getCols hjC]
        simp only [getCols]
        push_cast
        rfl
      simp only [e, String.append_assoc]

end Matrix

namespace Matrix

theorem digitChar_ne_lf (n : Nat) : Nat.digitChar n ≠ '\n' := by
  by_cases h : n < 16
  · interval_cases n <;> decide
  · unfold Nat.digitChar
    iterate 16 rw [if_neg (by omega)]
    decide

theorem toDigitsCore_ne_lf (f : Nat) : ∀ (n : Nat) (l : List Char),
    (∀ ch ∈ l, ch ≠ '\n') → ∀ ch ∈ Nat.toDigitsCore 10 f n l, ch ≠ '\n' := by
  induction f with
  | zero => intro n l hl; simpa [Nat.toDigitsCore] using hl
  | succ f ih =>
    intro n l hl
    have hcons : ∀ ch ∈ Nat.digitChar (n % 10) :: l, ch ≠ '\n' := by
      intro ch hch
      rcases List.mem_cons.mp hch with h | h
      · rw [h]; exact digitChar_ne_lf _
      · exact hl ch h
    simp only [Nat.toDigitsCore]
    split
    · exact hcons
    · exact ih _ _ hcons

theorem natRepr_ne_lf (n : Nat) : ∀ ch ∈ (toString n).data, ch ≠ '\n' := by
  show ∀ ch ∈ (Nat.repr n).data, ch ≠ '\n'
  simp only [Nat.repr, Nat.toDigits, List.asString]
  exact toDigitsCore_ne_lf _ _ _ (by simp)

/-- The decimal rendering of an `int` holds no line feed. -/
theorem intRepr_ne_lf (v : Int) : ∀ ch ∈ (toString v).data, ch ≠ '\n' := by
  cases v with
  | ofNat n => exact natRepr_ne_lf n
  | negSucc n =>
    show ∀ ch ∈ ("-" ++ toString (n + 1)).data, ch ≠ '\n'
    intro ch hch
    simp only [String.data_append, List.mem_append] at hch
    rcases hch with h | h
    · have : ch = '-' := by simpa using h
      rw [this]; decide
    · exact natRepr_ne_lf _ ch h

theorem firstLine_append (h rest : String) (hh : ∀ ch ∈ h.data, ch ≠ '\n') :
    firstLine (h ++ "\n" ++ rest) = h := by
  have key : ∀ l : List Char, (∀ ch ∈ l, ch ≠ '\n') → ∀ t : List Char,
      (l ++ '\n' :: t).takeWhile (fun ch => ch ≠ '\n') = l := by
    intro l
    induction l with
    | nil => intro _ t; simp [List.takeWhile]
    | cons a l ih =>
      intro hl t
      have ha : a ≠ '\n' := hl a (List.mem_cons_self _ _)
      simp only [List.cons_append, List.takeWhile_cons, ha, ne_eq, not_false_eq_true,
        decide_True, ↓reduceIte]
      rw [ih (fun ch hch => hl ch (List.mem_cons_of_mem _ hch))]
  unfold firstLine
  have e : (h ++ "\n" ++ rest).data = h.data ++ '\n' :: rest.data := by
    simp [String.data_append]
  rw [e, key h.data hh]

end Matrix

namespace Matrix

theorem header_ne_lf (R C : Int) :
    ∀ ch ∈ ("Matrix (" ++ toString R ++ "x" ++ toString C ++ ")").data, ch ≠ '\n' := by
  have h1 : ∀ ch ∈ "Matrix (".data, ch ≠ '\n' := by decide
  have h2 : ∀ ch ∈ "x".data, ch ≠ '\n' := by decide
  have h3 : ∀ ch ∈ ")".data, ch ≠ '\n' := by decide
  intro ch hch
  simp only [String.data_append, List.mem_append] at hch
  rcases hch with (((h | h) | h) | h) | h
  · exact h1 ch h
  · exact intRepr_ne_lf R ch h
  · exact h2 ch h
  · exact intRepr_ne_lf C ch h
  · exact h3 ch h

/-! ## C17, C18: the text `print` writes -/

/-- C17: for a matrix `m` of shape `(R, C)`, `print` writes the header `Matrix (RxC)`, `R`
and `C` in decimal and no space around the `x`, and a line feed, then `R` lines: line `r`
is, for `c = 0, ..., C - 1`, the decimal rendering of `m[r][c]` with spaces on its left up
to a width of 4, in full when it is longer, and one line feed after the last field only.
For the `(0, 0)` matrix the text is the header line alone. (`print` is a `const` method
that only reads: the text is a function of the matrix, which it leaves as it is.) -/
theorem print_spec (m : Matrix) (hm : m.Inv) :
    m.print = .ok ("Matrix (" ++ toString m.rows_ ++ "x" ++ toString m.cols_ ++ ")" ++ "\n" ++
      String.join ((List.range m.rows_.toNat).map fun (r : Nat) =>
        String.join ((List.range m.cols_.toNat).map fun (c : Nat) => setw 4 (m.cell r c)) ++
          "\n")) ∧
    (∀ v : Int, setw 4 v =
      String.mk (List.replicate (4 - (toString v).length) ' ') ++ toString v) ∧
    (∀ r c : Int, 0 ≤ r → r < m.rows_ → 0 ≤ c → c < m.cols_ →
      m.getValue r c = .ok (m.cell r c)) ∧
    (m.rows_ = 0 → m.cols_ = 0 → m.print = .ok "Matrix (0x0)\n") := by
  refine ⟨print_ok m hm, fun _ => rfl,
    fun r c h1 h2 h3 h4 => getValue_eq_cell hm ⟨h1, h2, h3, h4⟩, ?_⟩
  intro hr hc
  rw [print_ok m hm, hr, hc]
  rfl

/-- C17 at `[[1,-2,33333],[4,-5555,6]]`, where two renderings are longer than 4, and at
`[[1,2,3],[4,5,6]]`. -/
theorem print_spec_witness :
    (ofRows 2 3 [[1, -2, 33333], [4, -5555, 6]]).Inv ∧
    (ofRows 2 3 [[1, -2, 33333], [4, -5555, 6]]).print =
      .ok "Matrix (2x3)\n   1  -233333\n   4-5555   6\n" ∧
    (ofRows 2 3 [[1, 2, 3], [4, 5, 6]]).print =
      .ok "Matrix (2x3)\n   1   2   3\n   4   5   6\n" := by
  refine ⟨by decide, ?_, ?_⟩
  · rw [(print_spec (ofRows 2 3 [[1, -2, 33333], [4, -5555, 6]]) (by decide)).1]
    decide
  · rw [(print_spec (ofRows 2 3 [[1, 2, 3], [4, 5, 6]]) (by decide)).1]
    decide

/-- C18, as stated, fails: the first line `print` writes for a fresh 2x3 matrix is
`Matrix (2x3)`, and not `Matrix (2 x 3)` with a space on each side of the `x`. -/
theorem print_header_counterexample :
    (Matrix.new 2 3).Inv ∧
    (Matrix.new 2 3).print = .ok "Matrix (2x3)\n   0   0   0\n   0   0   0\n" ∧
    firstLine "Matrix (2x3)\n   0   0   0\n   0   0   0\n" = "Matrix (2x3)" ∧
    firstLine "Matrix (2x3)\n   0   0   0\n   0   0   0\n" ≠
      "Matrix (" ++ toString (2 : Int) ++ " " ++ "x" ++ " " ++ toString (3 : Int) ++ ")" := by
  refine ⟨by decide, by decide, by decide, by decide⟩

/-- C18, amended: for a matrix `m` of shape `(R, C)`, the first line `print` writes is the
header `Matrix (RxC)`: the text `Matrix (`, the decimal `R`, the letter `x`, the decimal
`C` and `)`, with no space around the `x`. -/
theorem print_header_spec (m : Matrix) (hm : m.Inv) :
    ∃ out, m.print = .ok out ∧
      firstLine out = "Matrix (" ++ toString m.rows_ ++ "x" ++ toString m.cols_ ++ ")" := by
  refine ⟨_, print_ok m hm, ?_⟩
  exact firstLine_append _ _ (header_ne_lf m.rows_ m.cols_)

/-- C18, amended, at `[[1,2,3],[4,5,6]]`: the first line is `Matrix (2x3)`. -/
theorem print_header_spec_witness :
    (ofRows 2 3 [[1, 2, 3], [4, 5, 6]]).Inv ∧
    ∃ out, (ofRows 2 3 [[1, 2, 3], [4, 5, 6]]).print = .ok out ∧
      firstLine out = "Matrix (2x3)" := by
  refine ⟨by decide, ?_⟩
  obtain ⟨out, h1, h2⟩ := print_header_spec (ofRows 2 3 [[1, 2, 3], [4, 5, 6]]) (by decide)
  exact ⟨out, h1, by rw [h2]; decide⟩

end Matrix

namespace Matrix

/-! ## C19: products of three matrices -/

theorem cast_wrap32 (x : Int) :
    ((wrap32 x : Int) : ZMod 4294967296) = (x : ZMod 4294967296) := by
  rw [ZMod.intCast_eq_intCast_iff_dvd_sub]
  have h := wrap32_sub_emod x
  have : (x - wrap32 x) % 4294967296 = 0 := by omega
  exact Int.dvd_of_emod_eq_zero this

theorem wrap32_congr (x y : Int)
    (h : (x : ZMod 4294967296) = (y : ZMod 4294967296)) : wrap32 x = wrap32 y := by
  rw [ZMod.intCast_eq_intCast_iff'] at h
  have h' : x % 4294967296 = y % 4294967296 := by exact_mod_cast h
  unfold wrap32
  omega

/-- A product in which a dimension of an operand is zero is the `(0, 0)` matrix. -/
theorem multiply_eq_new_zero (a b : Matrix) (ha : a.Inv) (hb : b.Inv)
    (hz : a.rows_ = 0 ∨ a.cols_ = 0 ∨ b.cols_ = 0) :
    a.multiply b = .ok (Matrix.new 0 0) := by
  have pa := ha.pos_iff
  have pb := hb.pos_iff
  have na := ha.nonneg
  have nb := hb.nonneg
  by_cases hcr : a.cols_ = b.rows_
  · obtain ⟨m, h1, h2, h3, -⟩ := multiply_ok a b ha hb hcr
    rw [h1, h2.eq_new_of_rows_zero (by omega)]
  · have hne : a.getCols ≠ b.getRows := hcr
    rw [multiply, if_pos hne]

end Matrix

namespace Matrix

/-- C19: for matrices `a`, `b` and `c` that keep the class invariant, and with no condition
on their shapes, `multiply(multiply(a, b), c)` and `multiply(a, multiply(b, c))` are both
computed and are one matrix `t`, of one shape and one value in every cell, the elements
being 32-bit two's-complement integers; when `a.cols != b.rows` or `b.cols != c.rows`,
`t` is the `(0, 0)` matrix. -/
theorem multiply_assoc_spec (a b c : Matrix) (ha : a.Inv) (hb : b.Inv) (hc : c.Inv) :
    ∃ ab bc t, a.multiply b = .ok ab ∧ ab.multiply c = .ok t ∧
      b.multiply c = .ok bc ∧ a.multiply bc = .ok t ∧
      (∀ r l : Int, 0 ≤ r → r < t.rows_ → 0 ≤ l → l < t.cols_ → ∃ v, t.getValue r l = .ok v) ∧
      (a.cols_ = b.rows_ → b.cols_ = c.rows_ → t.rows_ = a.rows_ ∧ t.cols_ = c.cols_) ∧
      ((a.cols_ ≠ b.rows_ ∨ b.cols_ ≠ c.rows_) →
        t = Matrix.new 0 0 ∧ t.rows_ = 0 ∧ t.cols_ = 0) := by
  by_cases h1 : a.cols_ = b.rows_
  · by_cases h2 : b.cols_ = c.rows_
    · obtain ⟨ab, m1, i1, r1, c1, v1⟩ := multiply_ok a b ha hb h1
      obtain ⟨bc, m2, i2, r2, c2, v2⟩ := multiply_ok b c hb hc h2
      obtain ⟨t, m3, i3, r3, c3, v3⟩ := multiply_ok ab c i1 hc (by rw [c1, h2])
      obtain ⟨t', m4, i4, r4, c4, v4⟩ := multiply_ok a bc ha i2 (by rw [r2, h1])
      have e : t' = t := by
        apply ext_of_getValue i4 i3 (by rw [r4, r3, r1]) (by rw [c4, c2, c3])
        intro r l hrl
        have hr0 : 0 ≤ r := hrl.1
        have hr : r < a.rows_ := by have := hrl.2.1; rw [r4] at this; exact this
        have hl0 : 0 ≤ l := hrl.2.2.1
        have hl : l < c.cols_ := by have := hrl.2.2.2; rw [c4, c2] at this; exact this
        have ht : t.InBounds r l :=
          ⟨hr0, by rw [r3, r1]; exact hr, hl0, by rw [c3]; exact hl⟩
        rw [v4 r l hrl, v3 r l ht, c1, h1]
        congr 1
        apply wrap32_congr
        push_cast
        have e1 : ∀ j ∈ Finset.range b.rows_.toNat,
            ((a.cell r j : Int) : ZMod 4294967296) * ((bc.cell j l : Int) : ZMod 4294967296) =
            ∑ k ∈ Finset.range b.cols_.toNat,
              ((a.cell r j : Int) : ZMod 4294967296) *
                (((b.cell j k : Int) : ZMod 4294967296) *
                  ((c.cell k l : Int) : ZMod 4294967296)) := by
          intro j hj
          have hj' : (j : Int) < b.rows_ := by
            have := Finset.mem_range.mp hj
            have := hb.nonneg.1
            omega
          rw [cell_of_getValue (v2 j l ⟨by omega, by rw [r2]; exact hj', hl0,
            by rw [c2]; exact hl⟩), cast_wrap32]
          push_cast
          rw [Finset.mul_sum]
        have e2 : ∀ k ∈ Finset.range b.cols_.toNat,
            ((ab.cell r k : Int) : ZMod 4294967296) * ((c.cell k l : Int) : ZMod 4294967296) =
            ∑ j ∈ Finset.range b.rows_.toNat,
              ((a.cell r j : Int) : ZMod 4294967296) *
                (((b.cell j k : Int) : ZMod 4294967296) *
                  ((c.cell k l : Int) : ZMod 4294967296)) := by
          intro k hk
          have hk' : (k : Int) < b.cols_ := by
            have := Finset.mem_range.mp hk
            have := hb.nonneg.2
            omega
          rw [cell_of_getValue (v1 r k ⟨hr0, by rw [r1]; exact hr, by omega,
            by rw [c1]; exact hk'⟩), cast_wrap32, h1]
          push_cast
          rw [Finset.sum_mul]
          apply Finset.sum_congr rfl
          intro j _
          rw [mul_assoc]
        rw [Finset.sum_congr rfl e1, Finset.sum_congr rfl e2, Finset.sum_comm]
      refine ⟨ab, bc, t, m1, m3, m2, by rw [← e]; exact m4, ?_,
        fun _ _ => ⟨by rw [r3, r1], c3⟩, fun h => ?_⟩
      · intro r l a1 a2 a3 a4
        exact ⟨_, getValue_eq_cell i3 ⟨a1, a2, a3, a4⟩⟩
      · rcases h with h | h
        · exact absurd h1 h
        · exact absurd h2 h
    · obtain ⟨ab, m1, i1, r1, c1, -⟩ := multiply_ok a b ha hb h1
      have hne1 : ab.getCols ≠ c.getRows := by
        show ab.cols_ ≠ c.rows_
        rw [c1]; exact h2
      have hne2 : b.getCols ≠ c.getRows := h2
      refine ⟨ab, Matrix.new 0 0, Matrix.new 0 0, m1, by rw [multiply, if_pos hne1],
        by rw [multiply, if_pos hne2],
        multiply_eq_new_zero a _ ha (inv_new 0 0) (Or.inr (Or.inr rfl)), ?_, ?_,
        fun _ => ⟨rfl, rfl, rfl⟩⟩
      · intro r l a1 a2 a3 a4
        have a2' : r < 0 := a2
        omega
      · intro _ h
        exact absurd h h2
  · have hne1 : a.getCols ≠ b.getRows := h1
    obtain ⟨bc, m2, i2⟩ := multiply_total b c hb.dataModelInv hc.dataModelInv
    have hrhs : a.multiply bc = .ok (Matrix.new 0 0) := by
      by_cases h2 : b.cols_ = c.rows_
      · obtain ⟨bc', m2', -, r2, -⟩ := multiply_ok b c hb hc h2
        have ebc : bc = bc' := by
          have : Except.ok bc = (Except.ok bc' : Except MatrixError Matrix) := by
            rw [← m2, ← m2']
          exact Except.ok.inj this
        have hne : a.getCols ≠ bc.getRows := by
          show a.cols_ ≠ bc.rows_
          rw [ebc, r2]; exact h1
        rw [multiply, if_pos hne]
      · have hne2 : b.getCols ≠ c.getRows := h2
        have ebc : bc = Matrix.new 0 0 := by
          have : Except.ok bc = (Except.ok (Matrix.new 0 0) : Except MatrixError Matrix) := by
            rw [← m2, multiply, if_pos hne2]
          exact Except.ok.inj this
        rw [ebc]
        exact multiply_eq_new_zero a _ ha (inv_new 0 0) (Or.inr (Or.inr rfl))
    refine ⟨Matrix.new 0 0, bc, Matrix.new 0 0, by rw [multiply, if_pos hne1],
      multiply_eq_new_zero _ c (inv_new 0 0) hc (Or.inl rfl), m2, hrhs, ?_, ?_,
      fun _ => ⟨rfl, rfl, rfl⟩⟩
    · intro r l a1 a2 a3 a4
      have a2' : r < 0 := a2
      omega
    · intro h _
      exact absurd h h1

end Matrix

namespace Matrix

/-- C19 at `a = [[1,2]]`, `b = [[3,4],[5,6]]` and `c = [[7],[8]]`, where both products are
`[[219]]`, and at `a = [[1,2]]`, `b = [[7],[8]]` and `c = [[7],[8]]`, where `b.cols` and
`c.rows` differ and both products are the `(0, 0)` matrix. -/
theorem multiply_assoc_spec_witness :
    (ofRows 1 2 [[1, 2]]).Inv ∧ (ofRows 2 2 [[3, 4], [5, 6]]).Inv ∧ (ofRows 2 1 [[7], [8]]).Inv ∧
    (∃ ab bc, (ofRows 1 2 [[1, 2]]).multiply (ofRows 2 2 [[3, 4], [5, 6]]) = .ok ab ∧
      ab.multiply (ofRows 2 1 [[7], [8]]) = .ok (ofRows 1 1 [[219]]) ∧
      (ofRows 2 2 [[3, 4], [5, 6]]).multiply (ofRows 2 1 [[7], [8]]) = .ok bc ∧
      (ofRows 1 2 [[1, 2]]).multiply bc = .ok (ofRows 1 1 [[219]])) ∧
    (∃ ab bc, (ofRows 1 2 [[1, 2]]).multiply (ofRows 2 1 [[7], [8]]) = .ok ab ∧
      ab.multiply (ofRows 2 1 [[7], [8]]) = .ok (Matrix.new 0 0) ∧
      (ofRows 2 1 [[7], [8]]).multiply (ofRows 2 1 [[7], [8]]) = .ok bc ∧
      (ofRows 1 2 [[1, 2]]).multiply bc = .ok (Matrix.new 0 0)) := by
  refine ⟨by decide, by decide, by decide, ?_, ?_⟩
  · obtain ⟨ab, bc, t, h1, h2, h3, h4, -⟩ := multiply_assoc_spec (ofRows 1 2 [[1, 2]])
      (ofRows 2 2 [[3, 4], [5, 6]]) (ofRows 2 1 [[7], [8]]) (by decide) (by decide) (by decide)
    have e1 : ab = ofRows 1 2 [[13, 16]] := by
      have e : Except.ok ab = (Except.ok (ofRows 1 2 [[13, 16]]) :
          Except MatrixError Matrix) := by rw [← h1]; decide
      exact Except.ok.inj e
    have e2 : t = ofRows 1 1 [[219]] := by
      have e : Except.ok t = (Except.ok (ofRows 1 1 [[219]]) :
          Except MatrixError Matrix) := by rw [← h2, e1]; decide
      exact Except.ok.inj e
    exact ⟨ab, bc, h1, by rw [h2, e2], h3, by rw [h4, e2]⟩
  · obtain ⟨ab, bc, t, h1, h2, h3, h4, -, -, h7⟩ := multiply_assoc_spec (ofRows 1 2 [[1, 2]])
      (ofRows 2 1 [[7], [8]]) (ofRows 2 1 [[7], [8]]) (by decide) (by decide) (by decide)
    have e := (h7 (Or.inr (by decide))).1
    exact ⟨ab, bc, h1, by rw [h2, e], h3, by rw [h4, e]⟩

/-! ## C20: the `(0, 0)` result and the shape mismatch -/

/-- C20: for matrices `a` and `b` that each have at least one cell, `add(a, b)` and
`subtract(a, b)` have shape `(0, 0)` if and only if the shapes of `a` and `b` differ, and
`multiply(a, b)` has shape `(0, 0)` if and only if `a.cols != b.rows`; whereas on two
`(0, 0)` matrices, whose shapes fit, `add`, `subtract` and `multiply` all return a matrix
of shape `(0, 0)`. -/
theorem sentinel_spec (a b : Matrix) (ha : a.DataModelInv) (hb : b.DataModelInv)
    (har : 0 < a.rows_) (hac : 0 < a.cols_) (hbr : 0 < b.rows_) (hbc : 0 < b.cols_) :
    (∃ m, a.add b = .ok m ∧
      ((m.rows_ = 0 ∧ m.cols_ = 0) ↔ (a.rows_ ≠ b.rows_ ∨ a.cols_ ≠ b.cols_))) ∧
    (∃ m, a.subtract b = .ok m ∧
      ((m.rows_ = 0 ∧ m.cols_ = 0) ↔ (a.rows_ ≠ b.rows_ ∨ a.cols_ ≠ b.cols_))) ∧
    (∃ m, a.multiply b = .ok m ∧ ((m.rows_ = 0 ∧ m.cols_ = 0) ↔ a.cols_ ≠ b.rows_)) ∧
    ((Matrix.new 0 0).rows_ = (Matrix.new 0 0).rows_ ∧
      (Matrix.new 0 0).cols_ = (Matrix.new 0 0).cols_ ∧
      (Matrix.new 0 0).cols_ = (Matrix.new 0 0).rows_ ∧
      (∃ m, (Matrix.new 0 0).add (Matrix.new 0 0) = .ok m ∧ m.rows_ = 0 ∧ m.cols_ = 0) ∧
      (∃ m, (Matrix.new 0 0).subtract (Matrix.new 0 0) = .ok m ∧ m.rows_ = 0 ∧ m.cols_ = 0) ∧
      (∃ m, (Matrix.new 0 0).multiply (Matrix.new 0 0) = .ok m ∧ m.rows_ = 0 ∧ m.cols_ = 0)) := by
  have ia : a.Inv := ha.inv_of_pos har hac
  have ib : b.Inv := hb.inv_of_pos hbr hbc
  refine ⟨?_, ?_, ?_, rfl, rfl, rfl, ⟨Matrix.new 0 0, by decide, rfl, rfl⟩,
    ⟨Matrix.new 0 0, by decide, rfl, rfl⟩, ⟨Matrix.new 0 0, by decide, rfl, rfl⟩⟩
  · by_cases h : a.rows_ = b.rows_ ∧ a.cols_ = b.cols_
    · obtain ⟨m, h1, -, h3, h4, -⟩ := add_ok a b ia ib h.1 h.2
      refine ⟨m, h1, ?_⟩
      constructor
      · intro hz; omega
      · intro hz; omega
    · have hne : a.rows_ ≠ b.getRows ∨ a.cols_ ≠ b.getCols := by
        simp only [getRows, getCols]; omega
      refine ⟨Matrix.new 0 0, by rw [add, if_pos hne], ?_⟩
      constructor
      · intro _; omega
      · intro _; exact ⟨rfl, rfl⟩
  · by_cases h : a.rows_ = b.rows_ ∧ a.cols_ = b.cols_
    · obtain ⟨m, h1, -, h3, h4, -⟩ := subtract_ok a b ia ib h.1 h.2
      refine ⟨m, h1, ?_⟩
      constructor
      · intro hz; omega
      · intro hz; omega
    · have hne : a.getRows ≠ b.getRows ∨ a.getCols ≠ b.getCols := by
        simp only [getRows, getCols]; omega
      refine ⟨Matrix.new 0 0, by rw [subtract, if_pos hne], ?_⟩
      constructor
      · intro _; omega
      · intro _; exact ⟨rfl, rfl⟩
  · by_cases h : a.cols_ = b.rows_
    · obtain ⟨m, h1, -, h3, h4, -⟩ := multiply_ok a b ia ib h
      refine ⟨m, h1, ?_⟩
      constructor
      · intro hz; omega
      · intro hz; exact absurd h hz
    · have hne : a.getCols ≠ b.getRows := h
      refine ⟨Matrix.new 0 0, by rw [multiply, if_pos hne], ?_⟩
      constructor
      · intro _; exact h
      · intro _; exact ⟨rfl, rfl⟩

/-- C20 at a 2x3 and a 3x2 matrix: the sum and the difference have shape `(0, 0)`, the
shapes differ; the product has shape `(2, 2)`, `a.cols == b.rows`. -/
theorem sentinel_spec_witness :
    (ofRows 2 3 [[1, 2, 3], [4, 5, 6]]).DataModelInv ∧
    (ofRows 3 2 [[7, 8], [9, 10], [11, 12]]).DataModelInv ∧
    (∃ m, (ofRows 2 3 [[1, 2, 3], [4, 5, 6]]).add (ofRows 3 2 [[7, 8], [9, 10], [11, 12]]) =
      .ok m ∧ m.rows_ = 0 ∧ m.cols_ = 0) ∧
    (∃ m, (ofRows 2 3 [[1, 2, 3], [4, 5, 6]]).multiply
      (ofRows 3 2 [[7, 8], [9, 10], [11, 12]]) = .ok m ∧ ¬ (m.rows_ = 0 ∧ m.cols_ = 0)) := by
  have ia : (ofRows 2 3 [[1, 2, 3], [4, 5, 6]]).DataModelInv :=
    Inv.dataModelInv (by decide)
  have ib : (ofRows 3 2 [[7, 8], [9, 10], [11, 12]]).DataModelInv :=
    Inv.dataModelInv (by decide)
  have h := sentinel_spec _ _ ia ib (by decide) (by decide) (by decide) (by decide)
  obtain ⟨m1, a1, a2⟩ := h.1
  obtain ⟨m3, c1, c2⟩ := h.2.2.1
  exact ⟨ia, ib, ⟨m1, a1, a2.mpr (Or.inl (by decide))⟩,
    ⟨m3, c1, fun hz => (c2.mp hz) (by decide)⟩⟩

end Matrix

end MatrixSpec
